import Mathlib

/-!
Verification development for the BNF parser generator.

This file gives a shallow embedding, in Lean 4, of the parts of the
C++ sources that the checked claims are about:

* `src/utf8_utils.cpp`        — UTF-8 scalar utilities (namespace `utf8`);
* `include/bnf_ast.hpp`       — the grammar AST (`ASTNode`, `ProductionRule`,
                                `Grammar`, `determineStartSymbol`, …);
* the `BNFLexer` of the grammar front-end (`readString`, `tokenize`);
* the `BNFParser` recursive-descent parser (`parsePrimary`,
  `parseAlternative`, `parseSequence`, `parseGrammar`, …) and the
  validator (`validateGrammar`, `collectSymbols`, `isProductive`);
* `src/grammar_tokenizer.cpp` — the regex synthesis of
  `GrammarBasedTokenizer` (`generateRegexWithDepth` and its helpers).

C++ `std::string` values are modelled as lists of byte values
(`ByteStr := List Nat`, entries < 256 for data produced by the code).
Unbounded loops of the source are modelled either by well-founded
recursion on the number of remaining input bytes (when the source loop
provably advances) or by an explicit fuel parameter (the fuel-exhausted
result is chosen so that it can never be mistaken for a result the C++
code produces); recursive-descent parsing uses a fuel parameter
throughout, and theorems quantify over the fuel.
-/

deriving instance DecidableEq for Except

/-- Byte strings: the model of C++ `std::string` (one `Nat` per byte). -/
abbrev ByteStr := List Nat

/-- Encode an ASCII Lean string literal as a byte string.  Only used to
write down concrete identifiers and messages in the theorems below. -/
def bs (s : String) : ByteStr := s.data.map Char.toNat

/-! ### UTF-8 utilities (`src/utf8_utils.cpp`, namespace `utf8`) -/

/-- `utf8::charLength`: infer the byte length of a UTF-8 sequence from
its first byte; ill-formed lead bytes are treated as length 1. -/
def charLength (firstByte : Nat) : Nat :=
  if firstByte &&& 0x80 == 0 then 1
  else if firstByte &&& 0xE0 == 0xC0 then 2
  else if firstByte &&& 0xF0 == 0xE0 then 3
  else if firstByte &&& 0xF8 == 0xF0 then 4
  else 1

/-- `utf8::isValidSequence`: bounds check plus continuation-byte check
(`10xxxxxx`) for bytes `pos+1 .. pos+length-1`. -/
def isValidSequence (input : ByteStr) (pos length : Nat) : Bool :=
  if input.length < pos + length then false
  else if length == 1 then (input.getD pos 0) &&& 0x80 == 0
  else (List.range length).all fun i =>
    i == 0 || ((input.getD (pos + i) 0) &&& 0xC0) == 0x80

/-- `utf8::extractChar`: the character (as a byte string) starting at
`pos` together with its byte length; invalid sequences yield the single
byte at `pos` with length 1, and `pos` past the end yields `([], 0)`. -/
def extractChar (input : ByteStr) (pos : Nat) : ByteStr × Nat :=
  if input.length ≤ pos then ([], 0)
  else
    let firstByte := input.getD pos 0
    let len := charLength firstByte
    if !isValidSequence input pos len then ([input.getD pos 0], 1)
    else ((input.drop pos).take len, len)

theorem charLength_pos (b : Nat) : 1 ≤ charLength b := by
  unfold charLength
  repeat' split
  all_goals omega

theorem extractChar_snd_pos (input : ByteStr) (pos : Nat)
    (h : pos < input.length) : 1 ≤ (extractChar input pos).2 := by
  unfold extractChar
  simp only [if_neg (by omega : ¬ input.length ≤ pos)]
  split
  · simp
  · exact charLength_pos _

/-- The `while` loop of `utf8::length`: count characters from `pos` on.
Each iteration of the source loop advances `pos` by `charLen ≥ 1`
(`extractChar_snd_pos`), so the `s.length + 1` fuel supplied by
`utf8Length` can never run out before the loop condition fails. -/
def utf8LengthLoop (s : ByteStr) : Nat → Nat → Nat
  | 0, _ => 0
  | fuel + 1, pos =>
    if pos < s.length then
      let charLen := (extractChar s pos).2
      if charLen = 0 then 0
      else utf8LengthLoop s fuel (pos + charLen) + 1
    else 0

/-- `utf8::length`: number of UTF-8 characters in a byte string. -/
def utf8Length (s : ByteStr) : Nat := utf8LengthLoop s (s.length + 1) 0

/-- `utf8::codepointToUtf8`: encode a scalar value as UTF-8 bytes;
throws (`Except.error`) above `U+10FFFF` and on the surrogate range.
Each appended `char` is the value truncated to a byte (`% 256`). -/
def codepointToUtf8 (codepoint : Nat) : Except ByteStr ByteStr :=
  if codepoint > 0x10FFFF then
    .error (bs "Invalid Unicode codepoint: exceeds U+10FFFF")
  else if codepoint ≥ 0xD800 ∧ codepoint ≤ 0xDFFF then
    .error (bs "Invalid Unicode codepoint: surrogate pair range")
  else if codepoint ≤ 0x7F then
    .ok [codepoint % 256]
  else if codepoint ≤ 0x7FF then
    .ok [(0xC0 ||| (codepoint >>> 6)) % 256,
         (0x80 ||| (codepoint &&& 0x3F)) % 256]
  else if codepoint ≤ 0xFFFF then
    .ok [(0xE0 ||| (codepoint >>> 12)) % 256,
         (0x80 ||| ((codepoint >>> 6) &&& 0x3F)) % 256,
         (0x80 ||| (codepoint &&& 0x3F)) % 256]
  else
    .ok [(0xF0 ||| (codepoint >>> 18)) % 256,
         (0x80 ||| ((codepoint >>> 12) &&& 0x3F)) % 256,
         (0x80 ||| ((codepoint >>> 6) &&& 0x3F)) % 256,
         (0x80 ||| (codepoint &&& 0x3F)) % 256]

/-- `utf8::utf8ToCodepoint`: decode the scalar value of the UTF-8
character at the start of the byte string; 0 for the empty string or a
string shorter than the length announced by its first byte. -/
def utf8ToCodepoint (utf8Str : ByteStr) : Nat :=
  match utf8Str with
  | [] => 0
  | firstByte :: _ =>
    let len := charLength firstByte
    if utf8Str.length < len then 0
    else if len = 1 then firstByte
    else if len = 2 then
      ((firstByte &&& 0x1F) <<< 6) ||| ((utf8Str.getD 1 0) &&& 0x3F)
    else if len = 3 then
      ((firstByte &&& 0x0F) <<< 12) |||
        (((utf8Str.getD 1 0) &&& 0x3F) <<< 6) ||| ((utf8Str.getD 2 0) &&& 0x3F)
    else if len = 4 then
      ((firstByte &&& 0x07) <<< 18) |||
        (((utf8Str.getD 1 0) &&& 0x3F) <<< 12) |||
        (((utf8Str.getD 2 0) &&& 0x3F) <<< 6) ||| ((utf8Str.getD 3 0) &&& 0x3F)
    else 0

/-! ### Grammar AST (`include/bnf_ast.hpp`) -/

/-- `ContextAction::ActionType`. -/
inductive ActionType where
  | STORE
  | LOOKUP
  | CHECK
deriving DecidableEq, Repr

/-- `ParameterType` of Extended-BNF rule parameters. -/
inductive ParameterType where
  | ENUM
  | INTEGER
  | STRING
  | BOOLEAN
deriving DecidableEq, Repr

/-- `RuleParameter`: a rule parameter (name, type, enum values).  The
`defaultValue` field of the source is never read by the embedded code
and is omitted. -/
structure RuleParameter where
  name : ByteStr
  type : ParameterType
  enumValues : List ByteStr
deriving DecidableEq, Repr

/-- The `ASTNode` class hierarchy as a closed sum: `Terminal`,
`NonTerminal` (with call-site parameter values), `CharRange` (Unicode
codepoints), `Alternative`, `Sequence`, `Group`, `Optional`,
`ZeroOrMore`, `OneOrMore`, `ContextAction`. -/
inductive ASTNode where
  | terminal (value : ByteStr)
  | nonTerminal (name : ByteStr) (parameterValues : List ByteStr)
  | charRange (start endCp : Nat)
  | alternative (choices : List ASTNode)
  | sequence (elements : List ASTNode)
  | group (content : ASTNode)
  | optional (content : ASTNode)
  | zeroOrMore (content : ASTNode)
  | oneOrMore (content : ASTNode)
  | contextAction (actionType : ActionType) (arguments : List ByteStr)
deriving Repr

/-- `ProductionRule`: left-hand side, parameters, right-hand side. -/
structure ProductionRule where
  leftSide : ByteStr
  parameters : List RuleParameter
  rightSide : ASTNode
deriving Repr

/-- `Grammar`: ordered rule list plus start symbol. -/
structure Grammar where
  rules : List ProductionRule
  startSymbol : ByteStr
deriving Repr

/-- `Grammar::addRule`: appends unconditionally (`rules.push_back`). -/
def Grammar.addRule (g : Grammar) (rule : ProductionRule) : Grammar :=
  { g with rules := g.rules ++ [rule] }

/-- `Grammar::findRule`: first rule whose `leftSide` is the name. -/
def Grammar.findRule (g : Grammar) (nonTerminal : ByteStr) :
    Option ProductionRule :=
  g.rules.find? fun rule => rule.leftSide == nonTerminal

mutual

/-- `Grammar::hasNonTerminalReferences`: does the node contain a
`NonTerminal` anywhere in the expression tree?  (`Terminal`,
`CharRange` and `ContextAction` fall through to `false`.) -/
def hasNonTerminalReferences : ASTNode → Bool
  | .nonTerminal _ _ => true
  | .sequence elements => hasNTRefList elements
  | .alternative choices => hasNTRefList choices
  | .group content => hasNonTerminalReferences content
  | .optional content => hasNonTerminalReferences content
  | .zeroOrMore content => hasNonTerminalReferences content
  | .oneOrMore content => hasNonTerminalReferences content
  | _ => false

/-- The `std::any_of` over a `Sequence`'s or `Alternative`'s children
inside `hasNonTerminalReferences`. -/
def hasNTRefList : List ASTNode → Bool
  | [] => false
  | x :: xs => hasNonTerminalReferences x || hasNTRefList xs

end

/-- The special rule names of `Grammar::determineStartSymbol`, in
priority order. -/
def specialNames : List ByteStr :=
  [bs "json", bs "program", bs "start", bs "grammar", bs "root"]

/-- The inner loop of step 1 of `determineStartSymbol`: is some rule
named `ruleName`? -/
def anyRuleNamed (rules : List ProductionRule) (ruleName : ByteStr) : Bool :=
  rules.any fun r => r.leftSide == ruleName

/-- The outer loop of step 1 of `determineStartSymbol`: the first
special name (in priority order) that names a rule. -/
def findSpecialName (rules : List ProductionRule) :
    List ByteStr → Option ByteStr
  | [] => none
  | ruleName :: rest =>
    if anyRuleNamed rules ruleName then some ruleName
    else findSpecialName rules rest

/-- Step 2 of `determineStartSymbol`: first rule whose right-hand side
contains a non-terminal reference. -/
def findFirstReferencing : List ProductionRule → Option ProductionRule
  | [] => none
  | r :: rest =>
    if hasNonTerminalReferences r.rightSide then some r
    else findFirstReferencing rest

/-- `Grammar::determineStartSymbol`: leaves the grammar unchanged when
a start symbol is already set or there are no rules; otherwise special
names first, then the first rule referencing a non-terminal, then the
first rule. -/
def Grammar.determineStartSymbol (g : Grammar) : Grammar :=
  if g.startSymbol != ([] : ByteStr) || g.rules.isEmpty then g
  else match findSpecialName g.rules specialNames with
    | some ruleName => { g with startSymbol := ruleName }
    | none =>
      match findFirstReferencing g.rules with
      | some r => { g with startSymbol := r.leftSide }
      | none =>
        match g.rules with
        | r0 :: _ => { g with startSymbol := r0.leftSide }
        | [] => g

/-! ### Grammar lexer (`BNFLexer`, namespace `bnf_parser_generator`) -/

/-- Token kinds of the grammar lexer. -/
inductive TokenType where
  | IDENTIFIER
  | TERMINAL
  | DEFINE
  | ALTERNATIVE
  | LEFT_PAREN
  | RIGHT_PAREN
  | LEFT_BRACKET
  | RIGHT_BRACKET
  | LEFT_BRACE
  | RIGHT_BRACE
  | PLUS
  | STAR
  | QUESTION
  | DOT_DOT
  | COMMA
  | COLON
  | SEMICOLON
  | COMMENT
  | NEWLINE
  | EOF_TOKEN
  | UNKNOWN
deriving DecidableEq, Repr

/-- `BNFToken`: kind, decoded value, and source position. -/
structure BNFToken where
  type : TokenType
  value : ByteStr
  line : Nat
  column : Nat
deriving DecidableEq, Repr

/-- The lexer's mutable cursor (`pos_`, `line_`, `column_`). -/
structure LexState where
  pos : Nat
  line : Nat
  column : Nat
deriving DecidableEq, Repr

/-- The two exception sites of the lexer: the malformed-Unicode-escape
`runtime_error` of `readString` (which formats the current line and
column) and the `runtime_error` thrown by `utf8::codepointToUtf8`. -/
inductive LexErr where
  | invalidEscape (line column : Nat)
  | invalidCodepoint (msg : ByteStr)
deriving DecidableEq, Repr

/-- `BNFLexer::peek`: byte at `pos_ + offset`, or `'\0'` past the end. -/
def lexPeek (input : ByteStr) (st : LexState) (offset : Nat) : Nat :=
  input.getD (st.pos + offset) 0

/-- `BNFLexer::advance`: consume one byte, updating line/column; at the
end of input returns `'\0'` without moving. -/
def lexAdvance (input : ByteStr) (st : LexState) : Nat × LexState :=
  if input.length ≤ st.pos then (0, st)
  else
    let c := input.getD st.pos 0
    (c, { pos := st.pos + 1,
          line := if c == 10 then st.line + 1 else st.line,
          column := if c == 10 then 1 else st.column + 1 })

theorem lexAdvance_pos_mono (input : ByteStr) (st : LexState) :
    st.pos ≤ (lexAdvance input st).2.pos := by
  unfold lexAdvance
  split <;> simp

theorem lexAdvance_pos_eq (input : ByteStr) (st : LexState)
    (h : st.pos < input.length) : (lexAdvance input st).2.pos = st.pos + 1 := by
  unfold lexAdvance
  simp [Nat.not_le_of_lt h]

/-- `BNFLexer::isAlpha` on bytes. -/
def isAlphaB (c : Nat) : Bool :=
  (97 ≤ c && c ≤ 122) || (65 ≤ c && c ≤ 90)

/-- `BNFLexer::isDigit` on bytes. -/
def isDigitB (c : Nat) : Bool := 48 ≤ c && c ≤ 57

/-- `BNFLexer::isAlnum` on bytes. -/
def isAlnumB (c : Nat) : Bool := isAlphaB c || isDigitB c

/-- The hex-digit test of `readString` (`0-9`, `a-f`, `A-F`). -/
def isHexDigitByte (c : Nat) : Bool :=
  (48 ≤ c && c ≤ 57) || (97 ≤ c && c ≤ 102) || (65 ≤ c && c ≤ 70)

/-- The value a hex-digit byte contributes in `readString`'s conversion
loop (`codepoint = codepoint * 16; codepoint += …`); a byte outside the
three ranges contributes nothing, exactly as in the source. -/
def hexDigitValue (c : Nat) : Nat :=
  if 48 ≤ c ∧ c ≤ 57 then c - 48
  else if 97 ≤ c ∧ c ≤ 102 then c - 97 + 10
  else if 65 ≤ c ∧ c ≤ 70 then c - 65 + 10
  else 0

/-- The hex-to-number conversion loop of `readString`. -/
def hexToCodepoint (hexCode : ByteStr) : Nat :=
  hexCode.foldl (fun codepoint c => codepoint * 16 + hexDigitValue c) 0

/-- The digit-reading `for` loop of `readString`: read exactly `n` hex
digits or throw the malformed-escape error at the current position. -/
def readHexLoop (input : ByteStr) :
    Nat → LexState → ByteStr → Except LexErr (ByteStr × LexState)
  | 0, st, hexCode => .ok (hexCode, st)
  | n + 1, st, hexCode =>
    let hexChar := lexPeek input st 0
    if isHexDigitByte hexChar then
      let (c, st') := lexAdvance input st
      readHexLoop input n st' (hexCode ++ [c])
    else .error (.invalidEscape st.line st.column)

theorem readHexLoop_pos_mono (input : ByteStr) (n : Nat) :
    ∀ st hexCode ds st', readHexLoop input n st hexCode = .ok (ds, st') →
      st.pos ≤ st'.pos := by
  induction n with
  | zero =>
    intro st hexCode ds st' h
    simp only [readHexLoop] at h
    cases h
    exact Nat.le_refl _
  | succ n ih =>
    intro st hexCode ds st' h
    simp only [readHexLoop] at h
    split at h
    · exact Nat.le_trans (lexAdvance_pos_mono input st) (ih _ _ _ _ h)
    · cases h

/-- The body of `BNFLexer::readString` after the opening quote: scan
until the closing quote (or the end of input), decoding escapes.  Each
iteration of the source loop consumes at least one byte
(`lexAdvance_pos_eq`, `readHexLoop_pos_mono`), so the
`input.length + 1` fuel supplied by `readString` can never run out;
`none` marks fuel exhaustion and is never a C++ result. -/
def readStringLoop (input : ByteStr) (quote : Nat) :
    Nat → LexState → ByteStr → Option (Except LexErr (ByteStr × LexState))
  | 0, _, _ => none
  | fuel + 1, st, value =>
    if st.pos < input.length then
      let c := lexPeek input st 0
      if c == quote then
        some (.ok (value, (lexAdvance input st).2))
      else if c == 92 then
        let st1 := (lexAdvance input st).2
        let escaped := lexPeek input st1 0
        if escaped == 117 || escaped == 85 then
          let isExtended := escaped == 85
          let st2 := (lexAdvance input st1).2
          let hexDigits := if isExtended then 8 else 4
          match readHexLoop input hexDigits st2 [] with
          | .error e => some (.error e)
          | .ok (hexCode, st3) =>
            let codepoint := hexToCodepoint hexCode
            match codepointToUtf8 codepoint with
            | .error msg => some (.error (.invalidCodepoint msg))
            | .ok bytes => readStringLoop input quote fuel st3 (value ++ bytes)
        else
          let st2 := (lexAdvance input st1).2
          let piece : ByteStr :=
            if escaped == 110 then [10]
            else if escaped == 116 then [9]
            else if escaped == 114 then [13]
            else if escaped == 92 then [92]
            else if escaped == 34 then [34]
            else if escaped == 39 then [39]
            else [92, escaped]
          readStringLoop input quote fuel st2 (value ++ piece)
      else
        readStringLoop input quote fuel (lexAdvance input st).2
          (value ++ [(lexAdvance input st).1])
    else some (.ok (value, st))

/-- `BNFLexer::readString`: consume the opening quote, run the loop,
and package the decoded value as a `TERMINAL` token positioned at the
opening quote. -/
def readString (input : ByteStr) (st : LexState) :
    Option (Except LexErr (BNFToken × LexState)) :=
  let startLine := st.line
  let startColumn := st.column
  let (quote, st1) := lexAdvance input st
  match readStringLoop input quote (input.length + 1) st1 [] with
  | none => none
  | some (.error e) => some (.error e)
  | some (.ok (value, st2)) =>
    some (.ok (⟨.TERMINAL, value, startLine, startColumn⟩, st2))

/-- The scanning loop of `BNFLexer::readIdentifier` (after the
optional opening `<`).  Every iteration consumes one byte, so the
`input.length + 1` fuel supplied by `readIdentifier` never runs out;
`none` marks fuel exhaustion. -/
def readIdentifierLoop (input : ByteStr) (inBrackets : Bool) :
    Nat → LexState → ByteStr → Option (ByteStr × LexState)
  | 0, _, _ => none
  | fuel + 1, st, value =>
    if st.pos < input.length then
      let c := lexPeek input st 0
      if inBrackets && c == 62 then
        some (value, (lexAdvance input st).2)
      else if !inBrackets && !isAlnumB c && c != 95 && c != 45 then
        some (value, st)
      else if inBrackets && (isAlnumB c || c == 95 || c == 45 || c == 32) then
        readIdentifierLoop input inBrackets fuel (lexAdvance input st).2
          (value ++ [(lexAdvance input st).1])
      else if !inBrackets && (isAlnumB c || c == 95 || c == 45) then
        readIdentifierLoop input inBrackets fuel (lexAdvance input st).2
          (value ++ [(lexAdvance input st).1])
      else some (value, st)
    else some (value, st)

/-- `BNFLexer::readIdentifier`: identifiers of letters, digits, `_`,
`-`, optionally wrapped in `<…>` (spaces allowed inside brackets). -/
def readIdentifier (input : ByteStr) (st : LexState) :
    Option (BNFToken × LexState) :=
  let startLine := st.line
  let startColumn := st.column
  let inBrackets := lexPeek input st 0 == 60
  let st1 := if inBrackets then (lexAdvance input st).2 else st
  match readIdentifierLoop input inBrackets (input.length + 1) st1 [] with
  | none => none
  | some (value, st2) =>
    some (⟨.IDENTIFIER, value, startLine, startColumn⟩, st2)

/-- The scanning loop of `BNFLexer::readComment` (after the `#`); the
fuel argument is as in `readIdentifierLoop`. -/
def readCommentLoop (input : ByteStr) :
    Nat → LexState → ByteStr → Option (ByteStr × LexState)
  | 0, _, _ => none
  | fuel + 1, st, value =>
    if st.pos < input.length then
      if lexPeek input st 0 != 10 then
        readCommentLoop input fuel (lexAdvance input st).2
          (value ++ [(lexAdvance input st).1])
      else some (value, st)
    else some (value, st)

/-- `BNFLexer::readComment`: everything after `#` up to the newline. -/
def readComment (input : ByteStr) (st : LexState) :
    Option (BNFToken × LexState) :=
  let startLine := st.line
  let startColumn := st.column
  let st1 := (lexAdvance input st).2
  match readCommentLoop input (input.length + 1) st1 [] with
  | none => none
  | some (value, st2) =>
    some (⟨.COMMENT, value, startLine, startColumn⟩, st2)

/-- `BNFLexer::skipWhitespace`: skip spaces, tabs and carriage returns
(newlines are significant and are not skipped); the fuel argument is as
in `readIdentifierLoop`. -/
def skipWhitespaceLexLoop (input : ByteStr) : Nat → LexState → Option LexState
  | 0, _ => none
  | fuel + 1, st =>
    if st.pos < input.length then
      let c := lexPeek input st 0
      if c == 32 || c == 9 || c == 13 then
        skipWhitespaceLexLoop input fuel (lexAdvance input st).2
      else some st
    else some st

/-- `BNFLexer::skipWhitespace` with its always-sufficient fuel. -/
def skipWhitespaceLex (input : ByteStr) (st : LexState) : Option LexState :=
  skipWhitespaceLexLoop input (input.length + 1) st

/-- Single-character operator tokens of the lexer's `switch`. -/
def singleCharTokenType (c : Nat) : Option TokenType :=
  if c == 124 then some .ALTERNATIVE
  else if c == 40 then some .LEFT_PAREN
  else if c == 41 then some .RIGHT_PAREN
  else if c == 91 then some .LEFT_BRACKET
  else if c == 93 then some .RIGHT_BRACKET
  else if c == 123 then some .LEFT_BRACE
  else if c == 125 then some .RIGHT_BRACE
  else if c == 43 then some .PLUS
  else if c == 42 then some .STAR
  else if c == 63 then some .QUESTION
  else if c == 44 then some .COMMA
  else if c == 59 then some .SEMICOLON
  else if c == 58 then some .COLON
  else none

/-- The main `while` loop of `BNFLexer::tokenize`.  Fuel exhaustion
yields `none`; every iteration of the source loop consumes at least one
byte, so `input.length + 1` fuel always suffices, and the theorems
below only use results with `some`. -/
def tokenizeLoop (input : ByteStr) :
    Nat → LexState → List BNFToken →
      Option (Except LexErr (List BNFToken × LexState))
  | 0, _, _ => none
  | fuel + 1, st, tokens =>
    if st.pos < input.length then
      match skipWhitespaceLex input st with
      | none => none
      | some st1 =>
        if input.length ≤ st1.pos then some (.ok (tokens, st1))
        else
          let c := lexPeek input st1 0
          if c == 35 then
            match readComment input st1 with
            | none => none
            | some (tok, st2) => tokenizeLoop input fuel st2 (tokens ++ [tok])
          else if c == 10 then
            let tok : BNFToken := ⟨.NEWLINE, bs "\\n", st1.line, st1.column⟩
            tokenizeLoop input fuel (lexAdvance input st1).2 (tokens ++ [tok])
          else if c == 34 || c == 39 then
            match readString input st1 with
            | none => none
            | some (.error e) => some (.error e)
            | some (.ok (tok, st2)) => tokenizeLoop input fuel st2 (tokens ++ [tok])
          else if c == 58 && lexPeek input st1 1 == 58 && lexPeek input st1 2 == 61 then
            let tok : BNFToken := ⟨.DEFINE, bs "::=", st1.line, st1.column⟩
            let st2 := (lexAdvance input (lexAdvance input (lexAdvance input st1).2).2).2
            tokenizeLoop input fuel st2 (tokens ++ [tok])
          else if c == 46 && lexPeek input st1 1 == 46 then
            let tok : BNFToken := ⟨.DOT_DOT, bs "..", st1.line, st1.column⟩
            let st2 := (lexAdvance input (lexAdvance input st1).2).2
            tokenizeLoop input fuel st2 (tokens ++ [tok])
          else
            match singleCharTokenType c with
            | some tt =>
              let tok : BNFToken := ⟨tt, [c], st1.line, st1.column⟩
              tokenizeLoop input fuel (lexAdvance input st1).2 (tokens ++ [tok])
            | none =>
              if isAlphaB c || c == 95 || c == 60 then
                match readIdentifier input st1 with
                | none => none
                | some (tok, st2) => tokenizeLoop input fuel st2 (tokens ++ [tok])
              else
                let tok : BNFToken := ⟨.UNKNOWN, [c], st1.line, st1.column⟩
                tokenizeLoop input fuel (lexAdvance input st1).2 (tokens ++ [tok])
    else some (.ok (tokens, st))

/-- `BNFLexer::tokenize`: run the loop from position 0, line 1,
column 1, then append the `EOF` token. -/
def tokenize (input : ByteStr) : Option (Except LexErr (List BNFToken)) :=
  match tokenizeLoop input (input.length + 1) ⟨0, 1, 1⟩ [] with
  | none => none
  | some (.error e) => some (.error e)
  | some (.ok (tokens, st)) =>
    some (.ok (tokens ++ [⟨.EOF_TOKEN, [], st.line, st.column⟩]))

/-! ### Grammar parser (`BNFParser`, `src/unnamed/part_004`)

The parser walks the token list with a cursor `current_` and a sticky
error slot `error_` (overwritten by each call to `error(...)`, checked
once at the end of `parseGrammar`).  Functions that return
`std::unique_ptr` are modelled with `Option`; the state carries the
cursor and the error slot.  Recursion is modelled with a fuel
parameter; at fuel 0 a function reports failure without constructing a
node, and all theorems quantify over (or instantiate) the fuel. -/

/-- One diagnostic of `BNFParser::error` (the C++ formats line, column
and message into `error_`; the components are kept separate here). -/
structure PError where
  line : Nat
  column : Nat
  msg : ByteStr
deriving DecidableEq, Repr

/-- Parser state: token cursor `current_` and error slot `error_`. -/
structure PState where
  cur : Nat
  err : Option PError
deriving DecidableEq, Repr

/-- Out-of-range token accesses (impossible on lexer output, which
always ends with `EOF_TOKEN`) default to an EOF token. -/
def eofDefault : BNFToken := ⟨.EOF_TOKEN, [], 0, 0⟩

/-- `BNFParser::peek`. -/
def pPeek (tokens : List BNFToken) (st : PState) : BNFToken :=
  tokens.getD st.cur eofDefault

/-- `BNFParser::isAtEnd`. -/
def pIsAtEnd (tokens : List BNFToken) (st : PState) : Bool :=
  tokens.length ≤ st.cur || (pPeek tokens st).type == .EOF_TOKEN

/-- `BNFParser::check`. -/
def pCheck (tokens : List BNFToken) (st : PState) (type : TokenType) : Bool :=
  if pIsAtEnd tokens st then false else (pPeek tokens st).type == type

/-- `BNFParser::advance`: step the cursor unless at the end; returns
the token before the (possibly new) cursor. -/
def pAdvance (tokens : List BNFToken) (st : PState) : BNFToken × PState :=
  if pIsAtEnd tokens st then (tokens.getD (st.cur - 1) eofDefault, st)
  else (tokens.getD st.cur eofDefault, { st with cur := st.cur + 1 })

/-- `BNFParser::match`: consume the token if it has the given kind. -/
def pMatch (tokens : List BNFToken) (st : PState) (type : TokenType) :
    Bool × PState :=
  if pCheck tokens st type then (true, (pAdvance tokens st).2) else (false, st)

/-- `BNFParser::error`: record a diagnostic at the current token
(overwriting any previous one). -/
def pError (tokens : List BNFToken) (st : PState) (msg : ByteStr) : PState :=
  let token := pPeek tokens st
  { st with err := some ⟨token.line, token.column, msg⟩ }

/-- The `while (match(COMMA)) { if (!check(IDENTIFIER)) { error(…);
break; } xs.push_back(advance().value); }` loop shared (with different
messages) by `parseContextAction`, `parseParameterValues` and
`parseEnumValues`. -/
def parseArgListLoop (tokens : List BNFToken) (errMsg : ByteStr) :
    Nat → PState → List ByteStr → List ByteStr × PState
  | 0, st, args => (args, st)
  | fuel + 1, st, args =>
    let m := pMatch tokens st .COMMA
    if m.1 then
      if !pCheck tokens m.2 .IDENTIFIER then (args, pError tokens m.2 errMsg)
      else
        parseArgListLoop tokens errMsg fuel (pAdvance tokens m.2).2
          (args ++ [(pAdvance tokens m.2).1.value])
    else (args, st)

/-- `BNFParser::parseContextAction`. -/
def parseContextAction (tokens : List BNFToken) (fuel : Nat) (st : PState) :
    Option ASTNode × PState :=
  let m := pMatch tokens st .LEFT_BRACE
  if !m.1 then (none, pError tokens st (bs "Expected '\x7b' to start context action"))
  else if !pCheck tokens m.2 .IDENTIFIER then
    (none, pError tokens m.2 (bs "Expected action name"))
  else
    let actionName := (pAdvance tokens m.2).1.value
    let st1 := (pAdvance tokens m.2).2
    let mp := pMatch tokens st1 .LEFT_PAREN
    if !mp.1 then (none, pError tokens st1 (bs "Expected '(' after action name"))
    else if !pCheck tokens mp.2 .RIGHT_PAREN && !pCheck tokens mp.2 .IDENTIFIER then
      (none, pError tokens mp.2 (bs "Expected argument"))
    else
      let r :=
        if pCheck tokens mp.2 .RIGHT_PAREN then (([] : List ByteStr), mp.2)
        else parseArgListLoop tokens (bs "Expected argument after ','") fuel
          (pAdvance tokens mp.2).2 [(pAdvance tokens mp.2).1.value]
      let arguments := r.1
      let mrp := pMatch tokens r.2 .RIGHT_PAREN
      if !mrp.1 then (none, pError tokens r.2 (bs "Expected ')' after arguments"))
      else
        let mrb := pMatch tokens mrp.2 .RIGHT_BRACE
        if !mrb.1 then (none, pError tokens mrp.2 (bs "Expected '\x7d' to end context action"))
        else if actionName == bs "store" then
          (some (.contextAction .STORE arguments), mrb.2)
        else if actionName == bs "lookup" then
          (some (.contextAction .LOOKUP arguments), mrb.2)
        else if actionName == bs "check" then
          (some (.contextAction .CHECK arguments), mrb.2)
        else (none, pError tokens mrb.2 (bs "Unknown action type: " ++ actionName))

/-- `BNFParser::parseParameterValues` (`[val1, val2]` at call sites).
Returns the values read so far even when a diagnostic is recorded,
exactly as the source does. -/
def parseParameterValues (tokens : List BNFToken) (fuel : Nat) (st : PState) :
    List ByteStr × PState :=
  let m := pMatch tokens st .LEFT_BRACKET
  if !m.1 then ([], pError tokens st (bs "Expected '[' to start parameter values"))
  else if !pCheck tokens m.2 .RIGHT_BRACKET && !pCheck tokens m.2 .IDENTIFIER then
    ([], pError tokens m.2 (bs "Expected parameter value"))
  else
    let r :=
      if pCheck tokens m.2 .RIGHT_BRACKET then (([] : List ByteStr), m.2)
      else parseArgListLoop tokens (bs "Expected parameter value after ','") fuel
        (pAdvance tokens m.2).2 [(pAdvance tokens m.2).1.value]
    let mr := pMatch tokens r.2 .RIGHT_BRACKET
    if !mr.1 then (r.1, pError tokens r.2 (bs "Expected ']' to end parameter values"))
    else (r.1, mr.2)

/-- `BNFParser::parseParameterizedNonTerminal`. -/
def parseParameterizedNonTerminal (tokens : List BNFToken) (fuel : Nat)
    (st : PState) : Option ASTNode × PState :=
  if !pCheck tokens st .IDENTIFIER then
    (none, pError tokens st (bs "Expected non-terminal name"))
  else
    let name := (pAdvance tokens st).1.value
    let st1 := (pAdvance tokens st).2
    if pCheck tokens st1 .LEFT_BRACKET then
      let r := parseParameterValues tokens fuel st1
      (some (.nonTerminal name r.1), r.2)
    else (some (.nonTerminal name []), st1)

/-- `BNFParser::parseParameterType` (`int`, `string`, `bool`, `enum`). -/
def parseParameterType (tokens : List BNFToken) (st : PState) :
    ParameterType × PState :=
  if !pCheck tokens st .IDENTIFIER then
    (.STRING, pError tokens st (bs "Expected parameter type"))
  else
    let typeName := (pAdvance tokens st).1.value
    let st1 := (pAdvance tokens st).2
    if typeName == bs "int" || typeName == bs "integer" then (.INTEGER, st1)
    else if typeName == bs "string" || typeName == bs "str" then (.STRING, st1)
    else if typeName == bs "bool" || typeName == bs "boolean" then (.BOOLEAN, st1)
    else if typeName == bs "enum" then (.ENUM, st1)
    else (.STRING, pError tokens st1 (bs "Unknown parameter type: " ++ typeName))

/-- `BNFParser::parseEnumValues` (`{val1, val2, val3}`). -/
def parseEnumValues (tokens : List BNFToken) (fuel : Nat) (st : PState) :
    List ByteStr × PState :=
  let m := pMatch tokens st .LEFT_BRACE
  if !m.1 then ([], pError tokens st (bs "Expected '\x7b' to start enum values"))
  else if !pCheck tokens m.2 .RIGHT_BRACE && !pCheck tokens m.2 .IDENTIFIER then
    ([], pError tokens m.2 (bs "Expected enum value"))
  else
    let r :=
      if pCheck tokens m.2 .RIGHT_BRACE then (([] : List ByteStr), m.2)
      else parseArgListLoop tokens (bs "Expected enum value after ','") fuel
        (pAdvance tokens m.2).2 [(pAdvance tokens m.2).1.value]
    let mr := pMatch tokens r.2 .RIGHT_BRACE
    if !mr.1 then (r.1, pError tokens r.2 (bs "Expected '\x7d' to end enum values"))
    else (r.1, mr.2)

/-- `BNFParser::parseRuleParameter` (`param`, `param:type`,
`param:enum{…}`); on a malformed parameter a default-typed parameter is
returned with the diagnostic recorded. -/
def parseRuleParameter (tokens : List BNFToken) (fuel : Nat) (st : PState) :
    RuleParameter × PState :=
  if !pCheck tokens st .IDENTIFIER then
    (⟨[], .STRING, []⟩, pError tokens st (bs "Expected parameter name"))
  else
    let paramName := (pAdvance tokens st).1.value
    let st1 := (pAdvance tokens st).2
    let m := pMatch tokens st1 .COLON
    if m.1 then
      let rt := parseParameterType tokens m.2
      if rt.1 == .ENUM then
        let re := parseEnumValues tokens fuel rt.2
        (⟨paramName, .ENUM, re.1⟩, re.2)
      else (⟨paramName, rt.1, []⟩, rt.2)
    else (⟨paramName, .STRING, []⟩, st1)

/-- The `while (match(COMMA)) parameters.push_back(parseRuleParameter())`
loop of `parseRuleParameters`. -/
def parseRPLoop (tokens : List BNFToken) :
    Nat → PState → List RuleParameter → List RuleParameter × PState
  | 0, st, params => (params, st)
  | fuel + 1, st, params =>
    let m := pMatch tokens st .COMMA
    if m.1 then
      let r := parseRuleParameter tokens fuel m.2
      parseRPLoop tokens fuel r.2 (params ++ [r.1])
    else (params, st)

/-- `BNFParser::parseRuleParameters` (`[param1, param2:type, …]`). -/
def parseRuleParameters (tokens : List BNFToken) (fuel : Nat) (st : PState) :
    List RuleParameter × PState :=
  let m := pMatch tokens st .LEFT_BRACKET
  if !m.1 then ([], pError tokens st (bs "Expected '[' to start parameter list"))
  else
    let r :=
      if pCheck tokens m.2 .RIGHT_BRACKET then (([] : List RuleParameter), m.2)
      else
        let r1 := parseRuleParameter tokens fuel m.2
        parseRPLoop tokens fuel r1.2 [r1.1]
    let mr := pMatch tokens r.2 .RIGHT_BRACKET
    if !mr.1 then (r.1, pError tokens r.2 (bs "Expected ']' to end parameter list"))
    else (r.1, mr.2)

mutual

/-- `BNFParser::parseExpression`: `expression ::= alternative`. -/
def parseExpression (tokens : List BNFToken) :
    Nat → PState → Option ASTNode × PState
  | 0, st => (none, st)
  | fuel + 1, st => parseAlternative tokens fuel st

/-- `BNFParser::parseAlternative`: `sequence ('|' sequence)*`; a single
alternative is returned unwrapped, otherwise an `Alternative` is built
from the first sequence and the loop. -/
def parseAlternative (tokens : List BNFToken) :
    Nat → PState → Option ASTNode × PState
  | 0, st => (none, st)
  | fuel + 1, st =>
    match parseSequence tokens fuel st with
    | (none, st1) => (none, st1)
    | (some left, st1) =>
      if !pCheck tokens st1 .ALTERNATIVE then (some left, st1)
      else
        match parseAltLoop tokens fuel st1 [left] with
        | (none, st2) => (none, st2)
        | (some choices, st2) => (some (.alternative choices), st2)

/-- The `while (match(ALTERNATIVE))` loop of `parseAlternative`,
accumulating the `Alternative`'s choices; a failing branch aborts the
whole alternative (`return nullptr`). -/
def parseAltLoop (tokens : List BNFToken) :
    Nat → PState → List ASTNode → Option (List ASTNode) × PState
  | 0, st, _ => (none, st)
  | fuel + 1, st, choices =>
    let m := pMatch tokens st .ALTERNATIVE
    if m.1 then
      match parseSequence tokens fuel m.2 with
      | (none, st1) => (none, st1)
      | (some right, st1) => parseAltLoop tokens fuel st1 (choices ++ [right])
    else (some choices, st)

/-- `BNFParser::parseSequence`: `factor+`; a single element is returned
itself, two or more are wrapped in a `Sequence`. -/
def parseSequence (tokens : List BNFToken) :
    Nat → PState → Option ASTNode × PState
  | 0, st => (none, st)
  | fuel + 1, st =>
    match parseFactor tokens fuel st with
    | (none, st1) => (none, st1)
    | (some first, st1) =>
      let r := parseSeqLoop tokens fuel st1 [first]
      if r.1.length == 1 then (some (r.1.getD 0 first), r.2)
      else (some (.sequence r.1), r.2)

/-- The element-collecting loop of `parseSequence`: keep parsing
factors until a terminator token (`|`, `)`, `]`, `}`, newline, EOF);
a failing factor breaks out, keeping the elements read so far (the
diagnostic stays in the state). -/
def parseSeqLoop (tokens : List BNFToken) :
    Nat → PState → List ASTNode → List ASTNode × PState
  | 0, st, elements => (elements, st)
  | fuel + 1, st, elements =>
    if !pIsAtEnd tokens st &&
        !pCheck tokens st .ALTERNATIVE &&
        !pCheck tokens st .RIGHT_PAREN &&
        !pCheck tokens st .RIGHT_BRACKET &&
        !pCheck tokens st .RIGHT_BRACE &&
        !pCheck tokens st .NEWLINE &&
        !pCheck tokens st .EOF_TOKEN then
      match parseFactor tokens fuel st with
      | (none, st1) => (elements, st1)
      | (some e, st1) => parseSeqLoop tokens fuel st1 (elements ++ [e])
    else (elements, st)

/-- `BNFParser::parseFactor`: `primary ('+' | '*' | '?')?`. -/
def parseFactor (tokens : List BNFToken) :
    Nat → PState → Option ASTNode × PState
  | 0, st => (none, st)
  | fuel + 1, st =>
    match parsePrimary tokens fuel st with
    | (none, st1) => (none, st1)
    | (some primary, st1) =>
      let mPlus := pMatch tokens st1 .PLUS
      if mPlus.1 then (some (.oneOrMore primary), mPlus.2)
      else
        let mStar := pMatch tokens st1 .STAR
        if mStar.1 then (some (.zeroOrMore primary), mStar.2)
        else
          let mQ := pMatch tokens st1 .QUESTION
          if mQ.1 then (some (.optional primary), mQ.2)
          else (some primary, st1)

/-- `BNFParser::parsePrimary`: identifiers (possibly parameterised),
`{…}` with the two-token lookahead deciding between a context action
and a zero-or-more repetition, groups, optionals, terminals and
character ranges.  Cursor save/restore is modelled by reusing the
saved state (the error slot is untouched by lookahead). -/
def parsePrimary (tokens : List BNFToken) :
    Nat → PState → Option ASTNode × PState
  | 0, st => (none, st)
  | fuel + 1, st =>
    if pCheck tokens st .IDENTIFIER then
      parseParameterizedNonTerminal tokens fuel st
    else if pCheck tokens st .LEFT_BRACE then
      let stA := (pAdvance tokens st).2
      let isCA :=
        if pCheck tokens stA .IDENTIFIER then
          pCheck tokens (pAdvance tokens stA).2 .LEFT_PAREN
        else false
      if isCA then parseContextAction tokens fuel st
      else
        let m := pMatch tokens st .LEFT_BRACE
        match parseExpression tokens fuel m.2 with
        | (none, st1) => (none, st1)
        | (some expr, st1) =>
          let mr := pMatch tokens st1 .RIGHT_BRACE
          if mr.1 then (some (.zeroOrMore expr), mr.2)
          else (none, pError tokens st1 (bs "Expected '\x7d' after repetition expression"))
    else
      let mp := pMatch tokens st .LEFT_PAREN
      if mp.1 then
        match parseExpression tokens fuel mp.2 with
        | (none, st1) => (none, st1)
        | (some expr, st1) =>
          let mr := pMatch tokens st1 .RIGHT_PAREN
          if mr.1 then (some (.group expr), mr.2)
          else (none, pError tokens st1 (bs "Expected ')' after grouped expression"))
      else
        let mb := pMatch tokens st .LEFT_BRACKET
        if mb.1 then
          match parseExpression tokens fuel mb.2 with
          | (none, st1) => (none, st1)
          | (some expr, st1) =>
            let mr := pMatch tokens st1 .RIGHT_BRACKET
            if mr.1 then (some (.optional expr), mr.2)
            else (none, pError tokens st1 (bs "Expected ']' after optional expression"))
        else if pCheck tokens st .TERMINAL then
          let startTok := (pAdvance tokens st).1
          let st1 := (pAdvance tokens st).2
          let md := pMatch tokens st1 .DOT_DOT
          if md.1 && pCheck tokens md.2 .TERMINAL then
            let endTok := (pAdvance tokens md.2).1
            let st2 := (pAdvance tokens md.2).2
            if utf8Length startTok.value == 1 && utf8Length endTok.value == 1 then
              let start_cp := utf8ToCodepoint startTok.value
              let end_cp := utf8ToCodepoint endTok.value
              if start_cp == 0 || end_cp == 0 then
                (none, pError tokens st2 (bs "Invalid UTF-8 character in range"))
              else (some (.charRange start_cp end_cp), st2)
            else
              (none, pError tokens st2 (bs "Character ranges must be single characters"))
          else
            let stR : PState := { md.2 with cur := st.cur }
            (some (.terminal (pAdvance tokens stR).1.value), (pAdvance tokens stR).2)
        else (none, pError tokens st (bs "Expected identifier, terminal, or grouped expression"))

end

/-- The `while (check(NEWLINE)) advance()` loop at the end of
`parseRule`. -/
def skipNewlines (tokens : List BNFToken) : Nat → PState → PState
  | 0, st => st
  | fuel + 1, st =>
    if pCheck tokens st .NEWLINE then
      skipNewlines tokens fuel (pAdvance tokens st).2
    else st

/-- `BNFParser::parseRule`: `IDENTIFIER [params] ::= expression`
followed by optional newlines. -/
def parseRule (tokens : List BNFToken) (fuel : Nat) (st : PState) :
    Option ProductionRule × PState :=
  if !pCheck tokens st .IDENTIFIER then
    (none, pError tokens st (bs "Expected rule name (identifier)"))
  else
    let ruleName := (pAdvance tokens st).1.value
    let st1 := (pAdvance tokens st).2
    let rp :=
      if pCheck tokens st1 .LEFT_BRACKET then parseRuleParameters tokens fuel st1
      else (([] : List RuleParameter), st1)
    let md := pMatch tokens rp.2 .DEFINE
    if !md.1 then (none, pError tokens rp.2 (bs "Expected '::=' after rule name"))
    else
      match parseExpression tokens fuel md.2 with
      | (none, st3) => (none, st3)
      | (some expression, st3) =>
        (some ⟨ruleName, rp.1, expression⟩, skipNewlines tokens fuel st3)

/-- The comment/newline-skipping loop at the start of
`parseGrammar`. -/
def skipCommentsNewlines (tokens : List BNFToken) : Nat → PState → PState
  | 0, st => st
  | fuel + 1, st =>
    if !pIsAtEnd tokens st &&
        (pCheck tokens st .COMMENT || pCheck tokens st .NEWLINE) then
      skipCommentsNewlines tokens fuel (pAdvance tokens st).2
    else st

/-- The main rule-reading loop of `BNFParser::parseGrammar`: skip
comments and newlines, parse rules, add them to the grammar, stop at
the first failing rule. -/
def parseGrammarLoop (tokens : List BNFToken) :
    Nat → PState → Grammar → Grammar × PState
  | 0, st, g => (g, st)
  | fuel + 1, st, g =>
    if !pIsAtEnd tokens st then
      if pCheck tokens st .COMMENT || pCheck tokens st .NEWLINE then
        parseGrammarLoop tokens fuel (pAdvance tokens st).2 g
      else
        match parseRule tokens fuel st with
        | (some rule, st1) => parseGrammarLoop tokens fuel st1 (g.addRule rule)
        | (none, st1) => (g, st1)
    else (g, st)

/-- `BNFParser::parseGrammar`: clear the error slot, skip leading
comments/newlines, read all rules, fail if any diagnostic was recorded,
then determine the start symbol. -/
def parseGrammar (tokens : List BNFToken) (fuel : Nat) :
    Option Grammar × PState :=
  match fuel with
  | 0 => (none, ⟨0, none⟩)
  | fuel + 1 =>
    let st1 := skipCommentsNewlines tokens fuel ⟨0, none⟩
    let r := parseGrammarLoop tokens fuel st1 ⟨[], []⟩
    match r.2.err with
    | some _ => (none, r.2)
    | none => (some r.1.determineStartSymbol, r.2)

/-! ### Grammar validator (`BNFParser::validateGrammar`) -/

/-- `std::unordered_set<std::string>::insert`, modelled as an
append-if-absent on a list (the list order stands in for the set's
unspecified iteration order). -/
def insertSym (xs : List ByteStr) (x : ByteStr) : List ByteStr :=
  if xs.contains x then xs else xs ++ [x]

mutual

/-- `BNFParser::collectSymbols`: insert every `NonTerminal` name and
every `Terminal` value of the subtree into the two accumulated sets.
`CharRange` and `ContextAction` have no branch in the source dispatch
and contribute nothing. -/
def collectSymbols : ASTNode → List ByteStr × List ByteStr →
    List ByteStr × List ByteStr
  | .nonTerminal name _, acc => (insertSym acc.1 name, acc.2)
  | .terminal value, acc => (acc.1, insertSym acc.2 value)
  | .alternative choices, acc => collectSymbolsList choices acc
  | .sequence elements, acc => collectSymbolsList elements acc
  | .group content, acc => collectSymbols content acc
  | .optional content, acc => collectSymbols content acc
  | .zeroOrMore content, acc => collectSymbols content acc
  | .oneOrMore content, acc => collectSymbols content acc
  | .charRange _ _, acc => acc
  | .contextAction _ _, acc => acc

/-- The child iteration of `collectSymbols`. -/
def collectSymbolsList : List ASTNode → List ByteStr × List ByteStr →
    List ByteStr × List ByteStr
  | [], acc => acc
  | x :: xs, acc => collectSymbolsList xs (collectSymbols x acc)

end

mutual

/-- `BNFParser::isProductive`: the one-step productivity test against
the current `productive` set.  `Terminal`/`CharRange` are always
productive, `Optional`/`ZeroOrMore` are always productive, and
`ContextAction` has no branch in the source's `dynamic_cast` chain, so
it falls through to the final `return false`. -/
def isProductive : ASTNode → List ByteStr → Bool
  | .nonTerminal name _, productive => productive.contains name
  | .terminal _, _ => true
  | .charRange _ _, _ => true
  | .alternative choices, productive => anyChoiceProductive choices productive
  | .sequence elements, productive => allElementsProductive elements productive
  | .group content, productive => isProductive content productive
  | .optional _, _ => true
  | .zeroOrMore _, _ => true
  | .oneOrMore content, productive => isProductive content productive
  | .contextAction _ _, _ => false

/-- The `Alternative` loop of `isProductive`: any child productive. -/
def anyChoiceProductive : List ASTNode → List ByteStr → Bool
  | [], _ => false
  | c :: cs, productive =>
    isProductive c productive || anyChoiceProductive cs productive

/-- The `Sequence` loop of `isProductive`: all children productive. -/
def allElementsProductive : List ASTNode → List ByteStr → Bool
  | [], _ => true
  | e :: es, productive =>
    isProductive e productive && allElementsProductive es productive

end

/-- One pass of the productivity fixed point: scan the rules in order,
inserting the left side of any rule that became productive (later rules
in the same pass see earlier insertions, as in the source). -/
def productivePass : List ProductionRule → List ByteStr → Bool →
    List ByteStr × Bool
  | [], productive, changed => (productive, changed)
  | r :: rs, productive, changed =>
    if !productive.contains r.leftSide then
      if isProductive r.rightSide productive then
        productivePass rs (productive ++ [r.leftSide]) true
      else productivePass rs productive changed
    else productivePass rs productive changed

/-- The `while (changed)` loop of the productivity analysis.  Each
changed pass inserts at least one of the (at most `rules.length`)
left-side names, so `rules.length + 1` iterations always reach the
fixed point; `validateGrammar` passes exactly that fuel. -/
def productivityLoop : Nat → List ProductionRule → List ByteStr →
    List ByteStr
  | 0, _, productive => productive
  | fuel + 1, rules, productive =>
    let r := productivePass rules productive false
    if r.2 then productivityLoop fuel rules r.1 else r.1

/-- The worklist loop of the reachability analysis (check 2): pop a
name, skip it if already reached, otherwise mark it reached and push
the names used by its rule that are not yet reached. -/
def reachLoop (g : Grammar) : Nat → List ByteStr → List ByteStr →
    List ByteStr
  | 0, reachable, _ => reachable
  | fuel + 1, reachable, toProcess =>
    match toProcess with
    | [] => reachable
    | current :: rest =>
      if reachable.contains current then reachLoop g fuel reachable rest
      else
        let reachable2 := reachable ++ [current]
        match g.findRule current with
        | none => reachLoop g fuel reachable2 rest
        | some rule =>
          let used := (collectSymbols rule.rightSide ([], [])).1
          let newNames := used.filter fun nt => !reachable2.contains nt
          reachLoop g fuel reachable2 (newNames ++ rest)

/-- Fuel that always suffices for `reachLoop`: the worklist receives at
most one initial element plus, for each of the at-most `1 + S` names
ever newly reached (S = total number of used names over all rules), at
most `S` pushed names. -/
def reachFuel (g : Grammar) : Nat :=
  let s := g.rules.foldl
    (fun acc r => acc + (collectSymbols r.rightSide ([], [])).1.length) 0
  (s + 2) * (s + 2)

/-- `BNFParser::ValidationResult`. -/
structure ValidationResult where
  isValid : Bool
  errors : List ByteStr
  warnings : List ByteStr
deriving DecidableEq, Repr

/-- `BNFParser::validateGrammar`: empty-grammar check, then
(1) every used non-terminal must be defined — error;
(2) rules unreachable from the start symbol — warning;
(3) rules that never become productive — error.
The source iterates `unordered_set`s whose order is unspecified; the
model iterates in first-insertion order. -/
def validateGrammar (grammar : Grammar) : ValidationResult :=
  if grammar.rules.isEmpty then ⟨false, [bs "Grammar is empty"], []⟩
  else
    let defined := grammar.rules.foldl (fun acc r => insertSym acc r.leftSide) []
    let usedTerms := grammar.rules.foldl
      (fun acc r => collectSymbols r.rightSide acc) ([], [])
    let used := usedTerms.1
    let errors1 := (used.filter fun nt => !defined.contains nt).map
      (fun nt => bs "Undefined non-terminal: " ++ nt)
    let reachable := reachLoop grammar (reachFuel grammar) [] [grammar.startSymbol]
    let warnings := (defined.filter fun nt => !reachable.contains nt).map
      (fun nt => bs "Unreachable non-terminal: " ++ nt)
    let productive := productivityLoop (grammar.rules.length + 1) grammar.rules []
    let errors2 := (defined.filter fun nt => !productive.contains nt).map
      (fun nt => bs "Non-productive non-terminal: " ++ nt)
    let errors := errors1 ++ errors2
    ⟨errors.isEmpty, errors, warnings⟩

/-! ### Tokenizer regex synthesis (`src/grammar_tokenizer.cpp`) -/

/-- `GrammarBasedTokenizer::escapeRegex`: backslash-escape the regex
metacharacters `. ^ $ * + ? ( ) [ ] { } | \`. -/
def escapeRegex (str : ByteStr) : ByteStr :=
  str.foldl
    (fun result c =>
      if c == 46 || c == 94 || c == 36 || c == 42 || c == 43 || c == 63 ||
          c == 40 || c == 41 || c == 91 || c == 93 || c == 123 || c == 125 ||
          c == 124 || c == 92 then
        result ++ [92, c]
      else result ++ [c])
    []

/-- `GrammarBasedTokenizer::generateCharRangeRegex`: `[a-b]` built from
the two codepoints truncated to single bytes (`std::string::operator+=`
on a `uint32_t` narrows to `char`); an inverted range yields `[]`. -/
def generateCharRangeRegex (start endCp : Nat) : ByteStr :=
  [91] ++ (if start ≤ endCp then [start % 256, 45, endCp % 256] else []) ++ [93]

/-- `|`-interspersion of the `generateAlternativeRegex` loop
(`if (i > 0) result += "|"`). -/
def joinAlternatives : List ByteStr → ByteStr
  | [] => []
  | [r] => r
  | r :: rs => r ++ [124] ++ joinAlternatives rs

/-- `GrammarBasedTokenizer::generateRegexWithDepth`.  The guard
`depth > 100` returns `""`; the `NonTerminal` case inlines the callee's
right-hand side at `depth + 1`; every other composite case goes through
the helper functions (`generateAlternativeRegex`,
`generateSequenceRegex`, `generateOptionalRegex`, …, inlined here),
which call `generateRegex(child)` — i.e. restart at depth `0`.  The
fuel bounds the C++ recursion depth (one unit per call, including each
loop step over a child list); `none` means the fuel ran out, so a
result of `none` for every fuel value means the C++ recursion never
returns. -/
def generateRegexWithDepth (g : Grammar) :
    Nat → ASTNode → Nat → Option ByteStr
  | 0, _, _ => none
  | fuel + 1, node, depth =>
    if depth > 100 then some []
    else
      match node with
      | .terminal value => some (escapeRegex value)
      | .charRange s e => some (generateCharRangeRegex s e)
      | .alternative choices =>
        match choices.mapM (fun c => generateRegexWithDepth g fuel c 0) with
        | none => none
        | some parts => some ([40] ++ joinAlternatives parts ++ [41])
      | .sequence elements =>
        match elements.mapM (fun e => generateRegexWithDepth g fuel e 0) with
        | none => none
        | some parts => some ([40] ++ parts.flatten ++ [41])
      | .optional content =>
        match generateRegexWithDepth g fuel content 0 with
        | none => none
        | some r => some ([40] ++ r ++ [41, 63])
      | .zeroOrMore content =>
        match generateRegexWithDepth g fuel content 0 with
        | none => none
        | some r => some ([40] ++ r ++ [41, 42])
      | .oneOrMore content =>
        match generateRegexWithDepth g fuel content 0 with
        | none => none
        | some r => some ([40] ++ r ++ [41, 43])
      | .group content =>
        match generateRegexWithDepth g fuel content 0 with
        | none => none
        | some r => some ([40] ++ r ++ [41])
      | .nonTerminal name _ =>
        match g.findRule name with
        | some rule => generateRegexWithDepth g fuel rule.rightSide (depth + 1)
        | none => some []
      | .contextAction _ _ => some []

/-- `GrammarBasedTokenizer::generateRegex`: entry point at depth 0. -/
def generateRegex (g : Grammar) (fuel : Nat) (node : ASTNode) :
    Option ByteStr :=
  generateRegexWithDepth g fuel node 0

/-! ### Concrete grammars used by the claims -/

/-- A grammar with two rules of the same name (`a ::= 'x'` and
`a ::= 'y'`), with the start symbol `determineStartSymbol` would pick. -/
def gDup : Grammar :=
  ⟨[⟨bs "a", [], .terminal (bs "x")⟩,
    ⟨bs "a", [], .terminal (bs "y")⟩], bs "a"⟩

/-- A grammar whose single rule has an empty terminal (`a ::= ''`). -/
def gEmptyTerm : Grammar :=
  ⟨[⟨bs "a", [], .terminal []⟩], bs "a"⟩

/-- A grammar whose call `b[bogus]` passes an argument identifier that
is neither a formal parameter of the enclosing rule `a` (whose only
parameter is `P`) nor an enumeration value of the callee's parameter
`Q` (whose values are `x`, `y`):
`a[P:enum{x,y}] ::= b[bogus]` / `b[Q:enum{x,y}] ::= 't'`. -/
def gBadArg : Grammar :=
  ⟨[⟨bs "a", [⟨bs "P", .ENUM, [bs "x", bs "y"]⟩],
      .nonTerminal (bs "b") [bs "bogus"]⟩,
    ⟨bs "b", [⟨bs "Q", .ENUM, [bs "x", bs "y"]⟩],
      .terminal (bs "t")⟩], bs "a"⟩

/-- The context-action grammar of the repository's own Extended-BNF
test (`document ::= anchor reference`, `anchor ::= "&name" "value"
{store(name, value)}`, `reference ::= "*name" {lookup(name)}`), exactly
as `parseGrammar` builds it. -/
def gContext : Grammar :=
  ⟨[⟨bs "document", [],
      .sequence [.nonTerminal (bs "anchor") [],
                 .nonTerminal (bs "reference") []]⟩,
    ⟨bs "anchor", [],
      .sequence [.terminal (bs "&name"), .terminal (bs "value"),
                 .contextAction .STORE [bs "name", bs "value"]]⟩,
    ⟨bs "reference", [],
      .sequence [.terminal (bs "*name"),
                 .contextAction .LOOKUP [bs "name"]]⟩], bs "document"⟩

/-- A grammar with the cyclic rule `a ::= a a` (a `Sequence` of two
self-references). -/
def gLoop : Grammar :=
  ⟨[⟨bs "a", [],
      .sequence [.nonTerminal (bs "a") [], .nonTerminal (bs "a") []]⟩],
    bs "a"⟩

/-! ### C2 — argument identifiers at parameterised call sites -/

/-- C2 (counterexample): the grammar `gBadArg` passes an argument
identifier (`bogus`) that is neither a formal parameter of the
enclosing rule nor an enum value of the callee's parameter, yet
`validateGrammar` accepts it — refuting the claim that such a call is
rejected by the validator. -/
theorem c2_validator_accepts_bogus_argument :
    (validateGrammar gBadArg).isValid = true := by decide

/-- C2 (amended): the validator performs no argument-identifier check
at all: `gBadArg` validates cleanly, and `collectSymbols` — the only
place the validator reads `NonTerminal` nodes — ignores the call-site
parameter values entirely. -/
theorem c2_validator_ignores_call_arguments :
    validateGrammar gBadArg = ⟨true, [], []⟩ ∧
    ∀ (name : ByteStr) (vals vals' : List ByteStr)
      (acc : List ByteStr × List ByteStr),
      collectSymbols (.nonTerminal name vals) acc =
        collectSymbols (.nonTerminal name vals') acc := by
  refine ⟨by decide, ?_⟩
  intro name vals vals' acc
  rfl

/-! ### C3 — productivity of `ContextAction` nodes -/

/-- C3: `isProductive` has no `ContextAction` branch and falls through
to `return false`, so the repository's own context-action test grammar
(`gContext`, accepted by the Extended-BNF test via
`BNFGrammarFactory::fromString`, which throws on validation failure) is
reported non-productive — contradicting the documented "ContextAction:
always productive (can match empty)". -/
theorem c3_contextAction_reported_nonproductive :
    isProductive (.contextAction .STORE [bs "name", bs "value"]) [] = false ∧
    (validateGrammar gContext).isValid = false ∧
    (validateGrammar gContext).errors.contains
      (bs "Non-productive non-terminal: anchor") = true := by decide

/-! ### C4 — termination of the tokenizer's regex synthesis -/

/-- Fuel induction for `gLoop`: expanding `a` at depth 0 and its
`Sequence` body at depth 1 both consume fuel forever — the helpers
restart at depth 0 via `generateRegex`, so the depth never exceeds 1
and the `depth > 100` guard is never reached. -/
theorem c4_gLoop_no_fuel_suffices (fuel : Nat) :
    generateRegexWithDepth gLoop fuel (.nonTerminal (bs "a") []) 0 = none ∧
    generateRegexWithDepth gLoop fuel
      (.sequence [.nonTerminal (bs "a") [], .nonTerminal (bs "a") []]) 1 =
      none := by
  induction fuel with
  | zero => exact ⟨rfl, rfl⟩
  | succ n ih =>
    constructor
    · have hstep : generateRegexWithDepth gLoop (n + 1)
          (.nonTerminal (bs "a") []) 0 =
          generateRegexWithDepth gLoop n
            (.sequence [.nonTerminal (bs "a") [], .nonTerminal (bs "a") []])
            1 := rfl
      rw [hstep, ih.2]
    · have hmap : [ASTNode.nonTerminal (bs "a") [],
          ASTNode.nonTerminal (bs "a") []].mapM
          (fun e => generateRegexWithDepth gLoop n e 0) = none := by
        rw [List.mapM_cons, ih.1]
        rfl
      show (match [ASTNode.nonTerminal (bs "a") [],
          ASTNode.nonTerminal (bs "a") []].mapM
          (fun e => generateRegexWithDepth gLoop n e 0) with
        | none => none
        | some parts => some ([40] ++ parts.flatten ++ [41])) = none
      rw [hmap]

/-- C4: for the cyclic grammar `a ::= a a` the regex synthesis never
returns — `generateRegex` on the reference to `a` runs out of any
amount of fuel, because the composite-node helpers reset the expansion
depth to 0, defeating the depth-100 recursion guard. -/
theorem c4_generateRegex_diverges_on_cycle (fuel : Nat) :
    generateRegex gLoop fuel (.nonTerminal (bs "a") []) = none :=
  (c4_gLoop_no_fuel_suffices fuel).1

/-! ### C5 — uniqueness of rule names -/

/-- C5 (counterexample): `gDup` defines the rule name `a` twice, yet
`validateGrammar` reports it valid — refuting the claim that duplicate
definitions are a validation error. -/
theorem c5_validator_accepts_duplicate_rules :
    (validateGrammar gDup).isValid = true := by decide

/-- C5 (amended): neither `Grammar::addRule` (an unconditional
`push_back`) nor `validateGrammar` checks for duplicate rule names; a
grammar with two rules of the same name validates without errors or
warnings. -/
theorem c5_duplicate_rules_not_checked :
    validateGrammar gDup = ⟨true, [], []⟩ ∧
    ∀ (g : Grammar) (r : ProductionRule),
      (g.addRule r).rules = g.rules ++ [r] := by
  refine ⟨by decide, ?_⟩
  intro g r
  rfl

/-! ### C6 — empty terminal strings -/

/-- C6 (counterexample): the grammar `a ::= ''` contains a `Terminal`
with an empty literal, yet `validateGrammar` accepts it — refuting the
claim that the validator rejects empty terminal strings. -/
theorem c6_validator_accepts_empty_terminal :
    (validateGrammar gEmptyTerm).isValid = true := by decide

/-- C6 (amended): the validator has no empty-terminal check: the
grammar validates cleanly, and a `Terminal` is productive regardless of
its (possibly empty) literal. -/
theorem c6_empty_terminal_not_checked :
    validateGrammar gEmptyTerm = ⟨true, [], []⟩ ∧
    ∀ productive : List ByteStr, isProductive (.terminal []) productive = true := by
  refine ⟨by decide, ?_⟩
  intro productive
  rfl

/-! ### C7 — the start-symbol heuristic -/

theorem findSpecialName_eq_find (rules : List ProductionRule) :
    ∀ names : List ByteStr,
      findSpecialName rules names =
        names.find? (fun ruleName => anyRuleNamed rules ruleName) := by
  intro names
  induction names with
  | nil => rfl
  | cons nm rest ih =>
    simp only [findSpecialName, List.find?_cons]
    cases h : anyRuleNamed rules nm with
    | true => simp [h]
    | false => simp [h, ih]

theorem findFirstReferencing_eq_find (rules : List ProductionRule) :
    findFirstReferencing rules =
      rules.find? (fun r => hasNonTerminalReferences r.rightSide) := by
  induction rules with
  | nil => rfl
  | cons r rest ih =>
    simp only [findFirstReferencing, List.find?_cons]
    cases h : hasNonTerminalReferences r.rightSide with
    | true => simp [h]
    | false => simp [h, ih]

/-- The three-step start-symbol heuristic exactly as the claim states
it: (1) the first of `json`, `program`, `start`, `grammar`, `root` (in
that priority order) that names some rule; (2) otherwise the left side
of the first rule whose right-hand side references another
non-terminal; (3) otherwise the first rule. -/
def specStartSymbol (rules : List ProductionRule) : ByteStr :=
  match specialNames.find? (fun ruleName =>
      rules.any (fun r => r.leftSide == ruleName)) with
  | some ruleName => ruleName
  | none =>
    match rules.find? (fun r => hasNonTerminalReferences r.rightSide) with
    | some r => r.leftSide
    | none =>
      match rules with
      | r0 :: _ => r0.leftSide
      | [] => []

/-- C7: after all rules are read (start symbol still empty, at least
one rule), `Grammar::determineStartSymbol` computes exactly the
three-step heuristic of the claim. -/
theorem c7_determineStartSymbol_matches_spec (g : Grammar)
    (h1 : g.startSymbol = []) (h2 : g.rules ≠ []) :
    (Grammar.determineStartSymbol g).startSymbol = specStartSymbol g.rules := by
  unfold Grammar.determineStartSymbol
  have hcond : (g.startSymbol != ([] : ByteStr) || g.rules.isEmpty) = false := by
    cases hr : g.rules with
    | nil => exact absurd hr h2
    | cons r rest => simp [h1, hr]
  rw [hcond]
  simp only [Bool.false_eq_true, if_false]
  unfold specStartSymbol
  rw [findSpecialName_eq_find]
  have hpred : (fun ruleName => anyRuleNamed g.rules ruleName) =
      (fun ruleName => g.rules.any (fun r => r.leftSide == ruleName)) := rfl
  rw [hpred]
  cases hfind : specialNames.find?
      (fun ruleName => g.rules.any (fun r => r.leftSide == ruleName)) with
  | some ruleName => rfl
  | none =>
    rw [findFirstReferencing_eq_find]
    cases href : g.rules.find? (fun r => hasNonTerminalReferences r.rightSide) with
    | some r => rfl
    | none =>
      cases hr : g.rules with
      | nil => exact absurd hr h2
      | cons r0 rest => rfl

/-- A two-rule grammar with no special names whose first rule
references a non-terminal; used to instantiate C7. -/
def gStartW : Grammar :=
  ⟨[⟨bs "expr", [], .nonTerminal (bs "term") []⟩,
    ⟨bs "term", [], .terminal (bs "x")⟩], []⟩

/-- C7 (witness): the heuristic equivalence applied to `gStartW`. -/
theorem c7_witness :
    gStartW.startSymbol = [] ∧ gStartW.rules ≠ [] ∧
      (Grammar.determineStartSymbol gStartW).startSymbol =
        specStartSymbol gStartW.rules :=
  ⟨rfl, List.cons_ne_nil _ _,
    c7_determineStartSymbol_matches_spec gStartW rfl (List.cons_ne_nil _ _)⟩

/-! ### C1 — character-range parsing -/

/-- The token stream of the range expression `'z'..'a'` (start scalar
122 greater than end scalar 97), as the lexer produces it. -/
def toksRangeZA : List BNFToken :=
  [⟨.TERMINAL, bs "z", 1, 1⟩, ⟨.DOT_DOT, bs "..", 1, 4⟩,
   ⟨.TERMINAL, bs "a", 1, 6⟩, ⟨.EOF_TOKEN, [], 1, 9⟩]

/-- C1 (counterexample): on `'z'..'a'` — start scalar 122 strictly
greater than end scalar 97 — `parsePrimary` succeeds and builds
`CharRange(122, 97)` with no diagnostic, refuting the claim that such
ranges are a parser error. -/
theorem c1_range_start_gt_end_accepted :
    parsePrimary toksRangeZA 1 ⟨0, none⟩ =
      (some (.charRange 122 97), ⟨3, none⟩) ∧ 97 < 122 :=
  ⟨rfl, by omega⟩

/-- C1 (amended): on a `TERMINAL ".." TERMINAL` token group the parser
builds `CharRange(start_cp, end_cp)` iff both bounds are a single
UTF-8 character (`utf8::length = 1`) and both decode to a nonzero
codepoint, reporting "Character ranges must be single characters" or
"Invalid UTF-8 character in range" otherwise — with no check that
`start_cp ≤ end_cp`. -/
theorem c1_range_amended (n : Nat) (v w : ByteStr)
    (l1 c1 l2 c2 l3 c3 l4 c4 : Nat) :
    (utf8Length v = 1 → utf8Length w = 1 →
      utf8ToCodepoint v ≠ 0 → utf8ToCodepoint w ≠ 0 →
      parsePrimary
        [⟨.TERMINAL, v, l1, c1⟩, ⟨.DOT_DOT, bs "..", l2, c2⟩,
         ⟨.TERMINAL, w, l3, c3⟩, ⟨.EOF_TOKEN, [], l4, c4⟩] (n + 1) ⟨0, none⟩ =
        (some (.charRange (utf8ToCodepoint v) (utf8ToCodepoint w)),
          ⟨3, none⟩)) ∧
    (¬(utf8Length v = 1 ∧ utf8Length w = 1) →
      parsePrimary
        [⟨.TERMINAL, v, l1, c1⟩, ⟨.DOT_DOT, bs "..", l2, c2⟩,
         ⟨.TERMINAL, w, l3, c3⟩, ⟨.EOF_TOKEN, [], l4, c4⟩] (n + 1) ⟨0, none⟩ =
        (none, ⟨3, some ⟨l4, c4,
          bs "Character ranges must be single characters"⟩⟩)) ∧
    (utf8Length v = 1 → utf8Length w = 1 →
      utf8ToCodepoint v = 0 ∨ utf8ToCodepoint w = 0 →
      parsePrimary
        [⟨.TERMINAL, v, l1, c1⟩, ⟨.DOT_DOT, bs "..", l2, c2⟩,
         ⟨.TERMINAL, w, l3, c3⟩, ⟨.EOF_TOKEN, [], l4, c4⟩] (n + 1) ⟨0, none⟩ =
        (none, ⟨3, some ⟨l4, c4, bs "Invalid UTF-8 character in range"⟩⟩)) := by
  have key : parsePrimary
      [⟨.TERMINAL, v, l1, c1⟩, ⟨.DOT_DOT, bs "..", l2, c2⟩,
       ⟨.TERMINAL, w, l3, c3⟩, ⟨.EOF_TOKEN, [], l4, c4⟩] (n + 1) ⟨0, none⟩ =
      if utf8Length v == 1 && utf8Length w == 1 then
        if utf8ToCodepoint v == 0 || utf8ToCodepoint w == 0 then
          (none, ⟨3, some ⟨l4, c4, bs "Invalid UTF-8 character in range"⟩⟩)
        else
          (some (.charRange (utf8ToCodepoint v) (utf8ToCodepoint w)),
            ⟨3, none⟩)
      else
        (none, ⟨3, some ⟨l4, c4,
          bs "Character ranges must be single characters"⟩⟩) := rfl
  refine ⟨?_, ?_, ?_⟩
  · intro h1 h2 h3 h4
    rw [key]
    simp [h1, h2, h3, h4]
  · intro h
    rw [key]
    have : (utf8Length v == 1 && utf8Length w == 1) = false := by
      rcases Decidable.not_and_iff_or_not.mp h with h' | h' <;> simp [h']
    rw [this]
    simp
  · intro h1 h2 h3
    rw [key]
    rcases h3 with h3 | h3 <;> simp [h1, h2, h3]

/-- C1 (amended, witness): the three branches instantiated — `'a'..'z'`
is accepted as `CharRange(97, 122)`; `'ab'..'z'` is a
single-character error; `'\0'-start` (`utf8::utf8ToCodepoint = 0`) is
an invalid-character error. -/
theorem c1_range_amended_witness :
    parsePrimary
      [⟨.TERMINAL, bs "a", 1, 1⟩, ⟨.DOT_DOT, bs "..", 1, 4⟩,
       ⟨.TERMINAL, bs "z", 1, 6⟩, ⟨.EOF_TOKEN, [], 1, 9⟩] 1 ⟨0, none⟩ =
      (some (.charRange 97 122), ⟨3, none⟩) ∧
    parsePrimary
      [⟨.TERMINAL, bs "ab", 1, 1⟩, ⟨.DOT_DOT, bs "..", 1, 5⟩,
       ⟨.TERMINAL, bs "z", 1, 7⟩, ⟨.EOF_TOKEN, [], 1, 10⟩] 1 ⟨0, none⟩ =
      (none, ⟨3, some ⟨1, 10,
        bs "Character ranges must be single characters"⟩⟩) ∧
    parsePrimary
      [⟨.TERMINAL, [0], 1, 1⟩, ⟨.DOT_DOT, bs "..", 1, 4⟩,
       ⟨.TERMINAL, bs "z", 1, 6⟩, ⟨.EOF_TOKEN, [], 1, 9⟩] 1 ⟨0, none⟩ =
      (none, ⟨3, some ⟨1, 9, bs "Invalid UTF-8 character in range"⟩⟩) :=
  ⟨(c1_range_amended 0 (bs "a") (bs "z") 1 1 1 4 1 6 1 9).1
      (by decide) (by decide) (by decide) (by decide),
    (c1_range_amended 0 (bs "ab") (bs "z") 1 1 1 5 1 7 1 10).2.1
      (by decide),
    (c1_range_amended 0 [0] (bs "z") 1 1 1 4 1 6 1 9).2.2
      (by decide) (by decide) (by decide)⟩

/-! ### C10 — UTF-8 encode/decode round trip -/

theorem charLength_ascii : ∀ d < 128, charLength d = 1 := by decide

theorem charLength_lead2 : ∀ d < 32, charLength (192 + d) = 2 := by decide

theorem charLength_lead3 : ∀ d < 16, charLength (224 + d) = 3 := by decide

theorem charLength_lead4 : ∀ d < 8, charLength (240 + d) = 4 := by decide

theorem and_mask63 (x : Nat) : x &&& 63 = x % 64 := by
  have h := Nat.and_pow_two_sub_one_eq_mod x 6
  norm_num at h
  exact h

theorem and_mask31 (x : Nat) : x &&& 31 = x % 32 := by
  have h := Nat.and_pow_two_sub_one_eq_mod x 5
  norm_num at h
  exact h

theorem and_mask15 (x : Nat) : x &&& 15 = x % 16 := by
  have h := Nat.and_pow_two_sub_one_eq_mod x 4
  norm_num at h
  exact h

theorem and_mask7 (x : Nat) : x &&& 7 = x % 8 := by
  have h := Nat.and_pow_two_sub_one_eq_mod x 3
  norm_num at h
  exact h

theorem lor_192 (d : Nat) (h : d < 64) : 192 ||| d = 192 + d := by
  have h192 : (192 : Nat) = 2 ^ 6 * 3 := rfl
  rw [h192]
  exact (Nat.mul_add_lt_is_or (by simpa using h) 3).symm

theorem lor_128 (d : Nat) (h : d < 64) : 128 ||| d = 128 + d := by
  have h128 : (128 : Nat) = 2 ^ 6 * 2 := rfl
  rw [h128]
  exact (Nat.mul_add_lt_is_or (by simpa using h) 2).symm

theorem lor_224 (d : Nat) (h : d < 16) : 224 ||| d = 224 + d := by
  have h224 : (224 : Nat) = 2 ^ 4 * 14 := rfl
  rw [h224]
  exact (Nat.mul_add_lt_is_or (by simpa using h) 14).symm

theorem lor_240 (d : Nat) (h : d < 8) : 240 ||| d = 240 + d := by
  have h240 : (240 : Nat) = 2 ^ 3 * 30 := rfl
  rw [h240]
  exact (Nat.mul_add_lt_is_or (by simpa using h) 30).symm

theorem lor_mul64 (q r : Nat) (h : r < 64) : (64 * q) ||| r = 64 * q + r := by
  have h2 := (Nat.mul_add_lt_is_or (show r < 2 ^ 6 by simpa using h) q).symm
  norm_num at h2
  exact h2

theorem lor_mul4096 (q r : Nat) (h : r < 4096) :
    (4096 * q) ||| r = 4096 * q + r := by
  have h2 := (Nat.mul_add_lt_is_or (show r < 2 ^ 12 by simpa using h) q).symm
  norm_num at h2
  exact h2

theorem lor_shift6 (q r : Nat) (h : r < 64) : (q <<< 6) ||| r = 64 * q + r := by
  rw [Nat.shiftLeft_eq, Nat.mul_comm]
  have h2 := (Nat.mul_add_lt_is_or (show r < 2 ^ 6 by simpa using h) q).symm
  norm_num at h2
  exact h2

theorem lor_shift12 (q r : Nat) (h : r < 4096) :
    (q <<< 12) ||| r = 4096 * q + r := by
  rw [Nat.shiftLeft_eq, Nat.mul_comm]
  have h2 := (Nat.mul_add_lt_is_or (show r < 2 ^ 12 by simpa using h) q).symm
  norm_num at h2
  exact h2

theorem lor_shift18 (q r : Nat) (h : r < 262144) :
    (q <<< 18) ||| r = 262144 * q + r := by
  rw [Nat.shiftLeft_eq, Nat.mul_comm]
  have h2 := (Nat.mul_add_lt_is_or (show r < 2 ^ 18 by simpa using h) q).symm
  norm_num at h2
  exact h2

theorem shr_div6 (x : Nat) : x >>> 6 = x / 64 := by
  have h := Nat.shiftRight_eq_div_pow x 6
  norm_num at h
  exact h

theorem shr_div12 (x : Nat) : x >>> 12 = x / 4096 := by
  have h := Nat.shiftRight_eq_div_pow x 12
  norm_num at h
  exact h

theorem shr_div18 (x : Nat) : x >>> 18 = x / 262144 := by
  have h := Nat.shiftRight_eq_div_pow x 18
  norm_num at h
  exact h

theorem shiftLeft6_eq (x : Nat) : x <<< 6 = x * 64 :=
  Nat.shiftLeft_eq x 6

theorem shiftLeft12_eq (x : Nat) : x <<< 12 = x * 4096 :=
  Nat.shiftLeft_eq x 12

/-- C10: decoding inverts encoding on every Unicode scalar value —
for `cp ≤ 0x10FFFF` outside the surrogate range,
`utf8::codepointToUtf8` succeeds and `utf8::utf8ToCodepoint` recovers
exactly `cp` from the produced bytes. -/
theorem c10_utf8_roundtrip (cp : Nat) (h1 : cp ≤ 0x10FFFF)
    (h2 : ¬(0xD800 ≤ cp ∧ cp ≤ 0xDFFF)) :
    ∃ bytes, codepointToUtf8 cp = .ok bytes ∧ utf8ToCodepoint bytes = cp := by
  have hng : ¬ cp > 0x10FFFF := by omega
  have hns : ¬ (cp ≥ 0xD800 ∧ cp ≤ 0xDFFF) := by omega
  by_cases hA : cp ≤ 0x7F
  · refine ⟨[cp % 256], ?_, ?_⟩
    · unfold codepointToUtf8
      rw [if_neg hng, if_neg hns, if_pos hA]
    · have hcp : cp % 256 = cp := Nat.mod_eq_of_lt (by omega)
      rw [hcp]
      have hcl := charLength_ascii cp (by omega)
      simp [utf8ToCodepoint, hcl]
  · by_cases hB : cp ≤ 0x7FF
    · refine ⟨[(0xC0 ||| (cp >>> 6)) % 256, (0x80 ||| (cp &&& 0x3F)) % 256],
        ?_, ?_⟩
      · unfold codepointToUtf8
        rw [if_neg hng, if_neg hns, if_neg hA, if_pos hB]
      · have hb0 : (0xC0 ||| (cp >>> 6)) % 256 = 192 + cp / 64 := by
          rw [shr_div6, lor_192 _ (by omega)]
          omega
        have hb1 : (0x80 ||| (cp &&& 0x3F)) % 256 = 128 + cp % 64 := by
          rw [and_mask63, lor_128 _ (by omega)]
          omega
        rw [hb0, hb1]
        have hcl := charLength_lead2 (cp / 64) (by omega)
        simp only [utf8ToCodepoint, hcl]
        norm_num
        rw [and_mask31, and_mask63]
        have e1 : (192 + cp / 64) % 32 = cp / 64 := by omega
        have e2 : (128 + cp % 64) % 64 = cp % 64 := by omega
        rw [e1, e2, lor_shift6 _ _ (by omega)]
        omega
    · by_cases hC : cp ≤ 0xFFFF
      · refine ⟨[(0xE0 ||| (cp >>> 12)) % 256,
          (0x80 ||| ((cp >>> 6) &&& 0x3F)) % 256,
          (0x80 ||| (cp &&& 0x3F)) % 256], ?_, ?_⟩
        · unfold codepointToUtf8
          rw [if_neg hng, if_neg hns, if_neg hA, if_neg hB, if_pos hC]
        · have hb0 : (0xE0 ||| (cp >>> 12)) % 256 = 224 + cp / 4096 := by
            rw [shr_div12, lor_224 _ (by omega)]
            omega
          have hb1 : (0x80 ||| ((cp >>> 6) &&& 0x3F)) % 256 =
              128 + cp / 64 % 64 := by
            rw [shr_div6, and_mask63, lor_128 _ (by omega)]
            omega
          have hb2 : (0x80 ||| (cp &&& 0x3F)) % 256 = 128 + cp % 64 := by
            rw [and_mask63, lor_128 _ (by omega)]
            omega
          rw [hb0, hb1, hb2]
          have hcl := charLength_lead3 (cp / 4096) (by omega)
          simp only [utf8ToCodepoint, hcl]
          norm_num
          simp only [and_mask15, and_mask63]
          have e0 : (224 + cp / 4096) % 16 = cp / 4096 := by omega
          have e1 : (128 + cp / 64 % 64) % 64 = cp / 64 % 64 := by omega
          have e2 : (128 + cp % 64) % 64 = cp % 64 := by omega
          rw [e0, e1, e2]
          have s1 := lor_shift12 (cp / 4096) ((cp / 64 % 64) <<< 6)
            (by rw [shiftLeft6_eq]; omega)
          rw [s1]
          rw [shiftLeft6_eq]
          have s3 : 4096 * (cp / 4096) + (cp / 64 % 64) * 64 =
              64 * (64 * (cp / 4096) + cp / 64 % 64) := by ring
          rw [s3, lor_mul64 _ _ (by omega)]
          have hd : cp / 64 / 64 = cp / 4096 := by
            rw [Nat.div_div_eq_div_mul]
          omega
      · refine ⟨[(0xF0 ||| (cp >>> 18)) % 256,
          (0x80 ||| ((cp >>> 12) &&& 0x3F)) % 256,
          (0x80 ||| ((cp >>> 6) &&& 0x3F)) % 256,
          (0x80 ||| (cp &&& 0x3F)) % 256], ?_, ?_⟩
        · unfold codepointToUtf8
          rw [if_neg hng, if_neg hns, if_neg hA, if_neg hB, if_neg hC]
        · have hb0 : (0xF0 ||| (cp >>> 18)) % 256 = 240 + cp / 262144 := by
            rw [shr_div18, lor_240 _ (by omega)]
            omega
          have hb1 : (0x80 ||| ((cp >>> 12) &&& 0x3F)) % 256 =
              128 + cp / 4096 % 64 := by
            rw [shr_div12, and_mask63, lor_128 _ (by omega)]
            omega
          have hb2 : (0x80 ||| ((cp >>> 6) &&& 0x3F)) % 256 =
              128 + cp / 64 % 64 := by
            rw [shr_div6, and_mask63, lor_128 _ (by omega)]
            omega
          have hb3 : (0x80 ||| (cp &&& 0x3F)) % 256 = 128 + cp % 64 := by
            rw [and_mask63, lor_128 _ (by omega)]
            omega
          rw [hb0, hb1, hb2, hb3]
          have hcl := charLength_lead4 (cp / 262144) (by omega)
          simp only [utf8ToCodepoint, hcl]
          norm_num
          simp only [and_mask7, and_mask63]
          have e0 : (240 + cp / 262144) % 8 = cp / 262144 := by omega
          have e1 : (128 + cp / 4096 % 64) % 64 = cp / 4096 % 64 := by omega
          have e2 : (128 + cp / 64 % 64) % 64 = cp / 64 % 64 := by omega
          have e3 : (128 + cp % 64) % 64 = cp % 64 := by omega
          rw [e0, e1, e2, e3]
          have s1 := lor_shift18 (cp / 262144) ((cp / 4096 % 64) <<< 12)
            (by rw [shiftLeft12_eq]; omega)
          rw [s1]
          rw [shiftLeft12_eq]
          have s3 : 262144 * (cp / 262144) + (cp / 4096 % 64) * 4096 =
              4096 * (64 * (cp / 262144) + cp / 4096 % 64) := by ring
          rw [s3]
          have s4 := lor_mul4096 (64 * (cp / 262144) + cp / 4096 % 64)
            ((cp / 64 % 64) <<< 6)
            (by rw [shiftLeft6_eq]; omega)
          rw [s4]
          rw [shiftLeft6_eq]
          have s6 : 4096 * (64 * (cp / 262144) + cp / 4096 % 64) +
              (cp / 64 % 64) * 64 =
              64 * (4096 * (cp / 262144) + 64 * (cp / 4096 % 64) +
                cp / 64 % 64) := by ring
          rw [s6, lor_mul64 _ _ (by omega)]
          have hd1 : cp / 64 / 64 = cp / 4096 := by
            rw [Nat.div_div_eq_div_mul]
          have hd2 : cp / 4096 / 64 = cp / 262144 := by
            rw [Nat.div_div_eq_div_mul]
          omega

/-- C10 (witness): the round trip at the concrete scalar `U+1F600`
(a 4-byte sequence). -/
theorem c10_utf8_roundtrip_witness :
    0x1F600 ≤ 0x10FFFF ∧ ¬(0xD800 ≤ 0x1F600 ∧ 0x1F600 ≤ 0xDFFF) ∧
      ∃ bytes, codepointToUtf8 0x1F600 = .ok bytes ∧
        utf8ToCodepoint bytes = 0x1F600 :=
  ⟨by norm_num, by norm_num,
    c10_utf8_roundtrip 0x1F600 (by norm_num) (by norm_num)⟩

/-! ### C8 — Unicode escapes in quoted terminals -/

theorem isHexDigitByte_ne_zero {c : Nat} (h : isHexDigitByte c = true) :
    c ≠ 0 := by
  unfold isHexDigitByte at h
  simp at h
  omega

theorem isHexDigitByte_ne_ten {c : Nat} (h : isHexDigitByte c = true) :
    (c == 10) = false := by
  unfold isHexDigitByte at h
  simp at h ⊢
  omega

theorem getD_ne_zero_lt {input : ByteStr} {p : Nat}
    (h : input.getD p 0 ≠ 0) : p < input.length := by
  by_contra hc
  exact h (List.getD_eq_default _ _ (by omega))

theorem lexAdvance_eval {input : ByteStr} {st : LexState}
    (h : st.pos < input.length) :
    lexAdvance input st = (input.getD st.pos 0,
      ⟨st.pos + 1,
        if input.getD st.pos 0 == 10 then st.line + 1 else st.line,
        if input.getD st.pos 0 == 10 then 1 else st.column + 1⟩) := by
  unfold lexAdvance
  rw [if_neg (by omega)]

theorem readHexLoop_error (input : ByteStr) :
    ∀ (k n : Nat) (st : LexState) (hexCode : ByteStr), k < n →
      (∀ i, i < k → isHexDigitByte (input.getD (st.pos + i) 0) = true) →
      isHexDigitByte (input.getD (st.pos + k) 0) = false →
      readHexLoop input n st hexCode =
        .error (.invalidEscape st.line (st.column + k)) := by
  intro k
  induction k with
  | zero =>
    intro n st hexCode hn hhex hbad
    match n, hn with
    | n + 1, _ =>
      simp only [readHexLoop, lexPeek]
      rw [if_neg (by simp_all)]
      simp
  | succ k ih =>
    intro n st hexCode hn hhex hbad
    match n, hn with
    | n + 1, _ =>
      have h0 : isHexDigitByte (input.getD (st.pos + 0) 0) = true :=
        hhex 0 (by omega)
      have hlt : st.pos < input.length := by
        have := getD_ne_zero_lt (isHexDigitByte_ne_zero h0)
        omega
      simp only [readHexLoop, lexPeek]
      rw [if_pos (by simpa using h0), lexAdvance_eval hlt]
      have h10 : (input.getD st.pos 0 == 10) = false := by
        have := isHexDigitByte_ne_ten (by simpa using h0)
        simpa using this
      rw [h10]
      simp only [Bool.false_eq_true, if_false]
      have := ih n ⟨st.pos + 1, st.line, st.column + 1⟩
        (hexCode ++ [input.getD st.pos 0]) (by omega)
        (fun i hi => by
          have := hhex (i + 1) (by omega)
          simpa [Nat.add_assoc, Nat.add_comm 1 i] using this)
        (by
          have := hbad
          simpa [Nat.add_assoc, Nat.add_comm 1 k] using this)
      rw [this]
      simp [Nat.add_assoc, Nat.add_comm 1 k]

theorem readHexLoop_ok (input : ByteStr) :
    ∀ (n : Nat) (st : LexState) (hexCode : ByteStr),
      (∀ i, i < n → isHexDigitByte (input.getD (st.pos + i) 0) = true) →
      readHexLoop input n st hexCode =
        .ok (hexCode ++ (List.range n).map (fun i => input.getD (st.pos + i) 0),
          ⟨st.pos + n, st.line, st.column + n⟩) := by
  intro n
  induction n with
  | zero =>
    intro st hexCode hhex
    simp [readHexLoop]
  | succ n ih =>
    intro st hexCode hhex
    have h0 : isHexDigitByte (input.getD (st.pos + 0) 0) = true :=
      hhex 0 (by omega)
    have hlt : st.pos < input.length := by
      have := getD_ne_zero_lt (isHexDigitByte_ne_zero h0)
      omega
    simp only [readHexLoop, lexPeek]
    rw [if_pos (by simpa using h0), lexAdvance_eval hlt]
    have h10 : (input.getD st.pos 0 == 10) = false := by
      have := isHexDigitByte_ne_ten (by simpa using h0)
      simpa using this
    rw [h10]
    simp only [Bool.false_eq_true, if_false]
    rw [ih ⟨st.pos + 1, st.line, st.column + 1⟩ (hexCode ++ [input.getD st.pos 0])
      (fun i hi => by
        have := hhex (i + 1) (by omega)
        simpa [Nat.add_assoc, Nat.add_comm 1 i] using this)]
    simp only [List.range_succ_eq_map, List.map_cons, List.map_map]
    have hmap : (fun i => List.getD input (st.pos + 1 + i) 0) =
        ((fun i => List.getD input (st.pos + i) 0) ∘ Nat.succ) := by
      funext i
      simp only [Function.comp]
      congr 1
      omega
    rw [List.append_assoc, hmap]
    simp [Nat.add_assoc, Nat.add_comm 1 n]

theorem readStringLoop_badEscape_error (input : ByteStr) (q : Nat) (fuel : Nat) (st : LexState)
    (value : ByteStr) (e k : Nat)
    (hq : (92 == q) = false)
    (h92 : input.getD st.pos 0 = 92)
    (he : input.getD (st.pos + 1) 0 = e)
    (heu : e = 117 ∨ e = 85)
    (hk : k < if e = 85 then 8 else 4)
    (hhex : ∀ i, i < k → isHexDigitByte (input.getD (st.pos + 2 + i) 0) = true)
    (hbad : isHexDigitByte (input.getD (st.pos + 2 + k) 0) = false) :
    readStringLoop input q (fuel + 1) st value =
      some (.error (.invalidEscape st.line (st.column + 2 + k))) := by
  have hlt : st.pos < input.length := getD_ne_zero_lt (by rw [h92]; omega)
  have hlt1 : st.pos + 1 < input.length := by
    apply getD_ne_zero_lt (p := st.pos + 1)
    rw [he]
    rcases heu with h | h <;> omega
  have hc : input.getD (st.pos + 0) 0 = 92 := by simpa using h92
  simp only [readStringLoop, lexPeek, hc]
  rw [if_pos hlt, hq]
  simp only [Bool.false_eq_true, if_false, show ((92 : Nat) == 92) = true from
    rfl, if_true]
  rw [lexAdvance_eval hlt, h92]
  simp only [show ((92 : Nat) == 10) = false from rfl, Bool.false_eq_true,
    if_false]
  have he' : input.getD (st.pos + 1 + 0) 0 = e := by simpa using he
  simp only [he']
  have hor : (e == 117 || e == 85) = true := by
    rcases heu with h | h <;> simp [h]
  rw [hor]
  simp only [if_true]
  rw [lexAdvance_eval hlt1, he]
  have hne10 : (e == 10) = false := by
    rcases heu with h | h <;> simp [h]
  rw [hne10]
  simp only [Bool.false_eq_true, if_false]
  rcases heu with h | h
  · subst h
    simp only [show ((92 : Nat) == 92) = true from rfl, if_true,
      show ((117 : Nat) == 85) = false from rfl, Bool.false_eq_true, if_false]
    rw [readHexLoop_error input k 4 ⟨st.pos + 1 + 1, st.line, st.column + 1 + 1⟩ []
      (by simpa using hk)
      (fun i hi => by
        have := hhex i hi
        simpa [Nat.add_assoc] using this)
      (by simpa [Nat.add_assoc] using hbad)]
  · subst h
    simp only [show ((92 : Nat) == 92) = true from rfl, if_true,
      show ((85 : Nat) == 85) = true from rfl]
    rw [readHexLoop_error input k 8 ⟨st.pos + 1 + 1, st.line, st.column + 1 + 1⟩ []
      (by simpa using hk)
      (fun i hi => by
        have := hhex i hi
        simpa [Nat.add_assoc] using this)
      (by simpa [Nat.add_assoc] using hbad)]

theorem readStringLoop_escape_decodes (input : ByteStr) (q : Nat) (fuel : Nat) (st : LexState)
    (value : ByteStr) (e : Nat) (bytes : ByteStr)
    (hq : (92 == q) = false)
    (h92 : input.getD st.pos 0 = 92)
    (he : input.getD (st.pos + 1) 0 = e)
    (heu : e = 117 ∨ e = 85)
    (hhex : ∀ i, i < (if e = 85 then 8 else 4) →
      isHexDigitByte (input.getD (st.pos + 2 + i) 0) = true)
    (henc : codepointToUtf8 (hexToCodepoint
        ((List.range (if e = 85 then 8 else 4)).map
          (fun i => input.getD (st.pos + 2 + i) 0))) = .ok bytes) :
    readStringLoop input q (fuel + 1) st value =
      readStringLoop input q fuel
        ⟨st.pos + 2 + (if e = 85 then 8 else 4), st.line,
          st.column + 2 + (if e = 85 then 8 else 4)⟩ (value ++ bytes) := by
  have hlt : st.pos < input.length := getD_ne_zero_lt (by rw [h92]; omega)
  have hlt1 : st.pos + 1 < input.length := by
    apply getD_ne_zero_lt (p := st.pos + 1)
    rw [he]
    rcases heu with h | h <;> omega
  have hc : input.getD (st.pos + 0) 0 = 92 := by simpa using h92
  simp only [readStringLoop, lexPeek, hc]
  rw [if_pos hlt, hq]
  simp only [Bool.false_eq_true, if_false, show ((92 : Nat) == 92) = true from
    rfl, if_true]
  rw [lexAdvance_eval hlt, h92]
  simp only [show ((92 : Nat) == 10) = false from rfl, Bool.false_eq_true,
    if_false]
  have he' : input.getD (st.pos + 1 + 0) 0 = e := by simpa using he
  simp only [he']
  have hor : (e == 117 || e == 85) = true := by
    rcases heu with h | h <;> simp [h]
  rw [hor]
  simp only [if_true]
  rw [lexAdvance_eval hlt1, he]
  have hne10 : (e == 10) = false := by
    rcases heu with h | h <;> simp [h]
  rw [hne10]
  simp only [Bool.false_eq_true, if_false]
  rcases heu with h | h
  · subst h
    simp only [show ((117 : Nat) == 85) = false from rfl, Bool.false_eq_true,
      if_false]
    rw [readHexLoop_ok input 4 ⟨st.pos + 1 + 1, st.line, st.column + 1 + 1⟩ []
      (fun i hi => by
        have := hhex i (by simpa using hi)
        simpa [Nat.add_assoc] using this)]
    simp only [List.nil_append]
    have hp : st.pos + 1 + 1 = st.pos + 2 := rfl
    have hcol : st.column + 1 + 1 = st.column + 2 := rfl
    rw [hp, hcol]
    have henc' := henc
    simp only [show (if (117 : Nat) = 85 then (8 : Nat) else 4) = 4 from
      rfl] at henc'
    rw [henc']
    norm_num
  · subst h
    simp only [show ((85 : Nat) == 85) = true from rfl, if_true]
    rw [readHexLoop_ok input 8 ⟨st.pos + 1 + 1, st.line, st.column + 1 + 1⟩ []
      (fun i hi => by
        have := hhex i (by simpa using hi)
        simpa [Nat.add_assoc] using this)]
    simp only [List.nil_append]
    have hp : st.pos + 1 + 1 = st.pos + 2 := rfl
    have hcol : st.column + 1 + 1 = st.column + 2 := rfl
    rw [hp, hcol]
    have henc' := henc
    simp only [eq_self_iff_true, if_true] at henc'
    rw [henc']

/-- C8: in `readString`, a `\u` escape must be followed by exactly 4
hex digits and a `\U` escape by exactly 8.  (1) If a non-hex byte
appears among the required digits, the lexer throws the
malformed-escape error carrying the current line and column;
(2) a well-formed escape whose value is a valid scalar is decoded by
`utf8::codepointToUtf8` and appended to the token value, and lexing
continues after the escape; (3) the error aborts `tokenize` (shown on
the concrete grammar text `x ::= '\u12'`). -/
theorem c8_unicode_escape_exact_hex_digits :
    (∀ (input : ByteStr) (q fuel : Nat) (st : LexState) (value : ByteStr)
        (e k : Nat),
      (92 == q) = false →
      input.getD st.pos 0 = 92 →
      input.getD (st.pos + 1) 0 = e →
      (e = 117 ∨ e = 85) →
      k < (if e = 85 then 8 else 4) →
      (∀ i, i < k → isHexDigitByte (input.getD (st.pos + 2 + i) 0) = true) →
      isHexDigitByte (input.getD (st.pos + 2 + k) 0) = false →
      readStringLoop input q (fuel + 1) st value =
        some (.error (.invalidEscape st.line (st.column + 2 + k)))) ∧
    (∀ (input : ByteStr) (q fuel : Nat) (st : LexState) (value : ByteStr)
        (e : Nat) (bytes : ByteStr),
      (92 == q) = false →
      input.getD st.pos 0 = 92 →
      input.getD (st.pos + 1) 0 = e →
      (e = 117 ∨ e = 85) →
      (∀ i, i < (if e = 85 then 8 else 4) →
        isHexDigitByte (input.getD (st.pos + 2 + i) 0) = true) →
      codepointToUtf8 (hexToCodepoint
        ((List.range (if e = 85 then 8 else 4)).map
          (fun i => input.getD (st.pos + 2 + i) 0))) = .ok bytes →
      readStringLoop input q (fuel + 1) st value =
        readStringLoop input q fuel
          ⟨st.pos + 2 + (if e = 85 then 8 else 4), st.line,
            st.column + 2 + (if e = 85 then 8 else 4)⟩ (value ++ bytes)) ∧
    tokenize (bs "x ::= '\\u12'") = some (.error (.invalidEscape 1 12)) :=
  ⟨fun input q fuel st value e k hq h92 he heu hk hhex hbad =>
      readStringLoop_badEscape_error input q fuel st value e k hq h92 he heu
        hk hhex hbad,
    fun input q fuel st value e bytes hq h92 he heu hhex henc =>
      readStringLoop_escape_decodes input q fuel st value e bytes hq h92 he
        heu hhex henc,
    by decide⟩

/-- C8 (witness): the two quantified parts instantiated — `\u1G`
errors at column 4 of line 1 (one hex digit, then a non-hex byte), and
`A` decodes to the byte `A` (65) with lexing continuing six bytes
further on. -/
theorem c8_unicode_escape_witness :
    readStringLoop (bs "\\u1G") 34 1 ⟨0, 1, 1⟩ [] =
      some (.error (.invalidEscape 1 4)) ∧
    readStringLoop (bs "\\u0041'") 39 2 ⟨0, 1, 1⟩ [] =
      readStringLoop (bs "\\u0041'") 39 1 ⟨6, 1, 7⟩ [65] :=
  ⟨c8_unicode_escape_exact_hex_digits.1 (bs "\\u1G") 34 0 ⟨0, 1, 1⟩ [] 117 1
      (by decide) (by decide) (by decide) (Or.inl rfl) (by decide)
      (by decide) (by decide),
    c8_unicode_escape_exact_hex_digits.2.1 (bs "\\u0041'") 39 1 ⟨0, 1, 1⟩ []
      117 [65] (by decide) (by decide) (by decide) (Or.inl rfl) (by decide)
      (by decide)⟩

/-! ### C9 — minimum arity of `Alternative` and `Sequence` nodes -/

mutual

/-- The arity discipline claimed for parser output: every
`Alternative` node and every `Sequence` node anywhere in the tree has
at least two children. -/
def goodArity : ASTNode → Bool
  | .alternative choices => 2 ≤ choices.length && goodArityList choices
  | .sequence elements => 2 ≤ elements.length && goodArityList elements
  | .group content => goodArity content
  | .optional content => goodArity content
  | .zeroOrMore content => goodArity content
  | .oneOrMore content => goodArity content
  | .terminal _ => true
  | .nonTerminal _ _ => true
  | .charRange _ _ => true
  | .contextAction _ _ => true

/-- `goodArity` on every node of a list. -/
def goodArityList : List ASTNode → Bool
  | [] => true
  | x :: xs => goodArity x && goodArityList xs

end

theorem goodArityList_append (xs ys : List ASTNode) :
    goodArityList (xs ++ ys) = (goodArityList xs && goodArityList ys) := by
  induction xs with
  | nil => simp [goodArityList]
  | cons x xs ih => simp [goodArityList, ih, Bool.and_assoc]

theorem goodArityList_head (x : ASTNode) (xs : List ASTNode)
    (h : goodArityList (x :: xs) = true) : goodArity x = true := by
  have h2 : (goodArity x && goodArityList xs) = true := h
  exact (Bool.and_eq_true_iff.mp h2).1

/-- `match(t)` succeeds exactly when `check(t)` holds. -/
theorem pMatch_fst (toks : List BNFToken) (st : PState) (t : TokenType) :
    (pMatch toks st t).1 = pCheck toks st t := by
  unfold pMatch
  split <;> simp [*]

/-- A successful `parseContextAction` always returns a `ContextAction`
node, which satisfies the arity discipline vacuously. -/
theorem parseContextAction_goodArity (toks : List BNFToken) (fuel : Nat)
    (st : PState) (r : ASTNode) (st' : PState)
    (h : parseContextAction toks fuel st = (some r, st')) :
    goodArity r = true := by
  unfold parseContextAction at h
  repeat' (change (if _ then _ else _) = _ at h
           split at h)
  all_goals
    first
      | exact Option.noConfusion (congrArg Prod.fst h)
      | (have h2 := congrArg Prod.fst h
         injection h2 with h3
         rw [← h3]
         rfl)

/-- A successful `parseParameterizedNonTerminal` always returns a
`NonTerminal` node, which satisfies the arity discipline vacuously. -/
theorem parseParameterizedNonTerminal_goodArity (toks : List BNFToken)
    (fuel : Nat) (st : PState) (r : ASTNode) (st' : PState)
    (h : parseParameterizedNonTerminal toks fuel st = (some r, st')) :
    goodArity r = true := by
  unfold parseParameterizedNonTerminal at h
  repeat' (change (if _ then _ else _) = _ at h
           split at h)
  all_goals
    first
      | exact Option.noConfusion (congrArg Prod.fst h)
      | (have h2 := congrArg Prod.fst h
         injection h2 with h3
         rw [← h3]
         rfl)

/-- The arity invariant of the expression parser, proved for all the
mutually recursive entry points at once by induction on the fuel:
every successfully returned node satisfies `goodArity`, and the two
accumulator loops only ever grow their accumulator (with a strict
growth guarantee for the alternative loop when a `|` is pending, which
is what makes every built `Alternative` at least binary). -/
theorem parser_arity_invariant (toks : List BNFToken) : ∀ n : Nat,
    (∀ st r st', parseExpression toks n st = (some r, st') → goodArity r = true) ∧
    (∀ st r st', parseAlternative toks n st = (some r, st') → goodArity r = true) ∧
    (∀ st acc r st', parseAltLoop toks n st acc = (some r, st') →
      goodArityList acc = true →
      goodArityList r = true ∧ acc.length ≤ r.length ∧
        (pCheck toks st .ALTERNATIVE = true → acc.length + 1 ≤ r.length)) ∧
    (∀ st r st', parseSequence toks n st = (some r, st') → goodArity r = true) ∧
    (∀ st acc r st', parseSeqLoop toks n st acc = (r, st') →
      goodArityList acc = true →
      goodArityList r = true ∧ acc.length ≤ r.length) ∧
    (∀ st r st', parseFactor toks n st = (some r, st') → goodArity r = true) ∧
    (∀ st r st', parsePrimary toks n st = (some r, st') → goodArity r = true) := by
  intro n
  induction n with
  | zero =>
    refine ⟨?_, ?_, ?_, ?_, ?_, ?_, ?_⟩
    · intro st r st' h; exact Option.noConfusion (congrArg Prod.fst h)
    · intro st r st' h; exact Option.noConfusion (congrArg Prod.fst h)
    · intro st acc r st' h hacc; exact Option.noConfusion (congrArg Prod.fst h)
    · intro st r st' h; exact Option.noConfusion (congrArg Prod.fst h)
    · intro st acc r st' h hacc
      have h2 : acc = r := congrArg Prod.fst h
      subst h2
      exact ⟨hacc, le_refl _⟩
    · intro st r st' h; exact Option.noConfusion (congrArg Prod.fst h)
    · intro st r st' h; exact Option.noConfusion (congrArg Prod.fst h)
  | succ n ih =>
    obtain ⟨ihE, ihA, ihAL, ihS, ihSL, ihF, ihP⟩ := ih
    have hE : ∀ st r st', parseExpression toks (n + 1) st = (some r, st') →
        goodArity r = true := by
      intro st r st' h
      exact ihA st r st' h
    have hP : ∀ st r st', parsePrimary toks (n + 1) st = (some r, st') →
        goodArity r = true := by
      intro st r st' h
      simp only [parsePrimary] at h
      repeat' split at h
      all_goals
        first
          | exact Option.noConfusion (congrArg Prod.fst h)
          | exact parseParameterizedNonTerminal_goodArity _ _ _ _ _ h
          | exact parseContextAction_goodArity _ _ _ _ _ h
          | (have h2 := congrArg Prod.fst h
             injection h2 with h3
             rw [← h3]
             first
               | rfl
               | (simp only [goodArity]
                  exact ihE _ _ _ (by assumption)))
    have hF : ∀ st r st', parseFactor toks (n + 1) st = (some r, st') →
        goodArity r = true := by
      intro st r st' h
      simp only [parseFactor] at h
      repeat' split at h
      all_goals
        first
          | exact Option.noConfusion (congrArg Prod.fst h)
          | (have h2 := congrArg Prod.fst h
             injection h2 with h3
             rw [← h3]
             first
               | (simp only [goodArity]
                  exact ihP _ _ _ (by assumption))
               | exact ihP _ _ _ (by assumption))
    have hSL : ∀ st acc r st', parseSeqLoop toks (n + 1) st acc = (r, st') →
        goodArityList acc = true →
        goodArityList r = true ∧ acc.length ≤ r.length := by
      intro st acc r st' h hacc
      simp only [parseSeqLoop] at h
      split at h
      · split at h
        next st1 heq =>
          have h2 : acc = r := congrArg Prod.fst h
          subst h2
          exact ⟨hacc, le_refl _⟩
        next e st1 heq =>
          have hge := ihF st e st1 heq
          obtain ⟨hg, hlen⟩ := ihSL st1 (acc ++ [e]) r st' h
            (by rw [goodArityList_append]; simp [hacc, goodArityList, hge])
          refine ⟨hg, ?_⟩
          simp [List.length_append] at hlen
          omega
      · have h2 : acc = r := congrArg Prod.fst h
        subst h2
        exact ⟨hacc, le_refl _⟩
    have hS : ∀ st r st', parseSequence toks (n + 1) st = (some r, st') →
        goodArity r = true := by
      intro st r st' h
      simp only [parseSequence] at h
      split at h
      next st1 heq => exact Option.noConfusion (congrArg Prod.fst h)
      next first st1 heq =>
        have hgf := ihF st first st1 heq
        obtain ⟨hg, hlen⟩ := ihSL st1 [first]
          (parseSeqLoop toks n st1 [first]).1 (parseSeqLoop toks n st1 [first]).2
          rfl (by simp [goodArityList, hgf])
        have h1 : 1 ≤ (parseSeqLoop toks n st1 [first]).1.length := by
          simpa using hlen
        split at h
        next hcond =>
          have h2 := congrArg Prod.fst h
          injection h2 with h3
          rw [← h3]
          generalize hel : (parseSeqLoop toks n st1 [first]).1 = elems at hg hcond ⊢
          cases elems with
          | nil => simp at hcond
          | cons x tl =>
            simp only [List.getD_cons_zero]
            exact goodArityList_head x tl hg
        next hcond =>
          have h2 := congrArg Prod.fst h
          injection h2 with h3
          rw [← h3]
          have hne : ¬((parseSeqLoop toks n st1 [first]).1.length = 1) := by
            simpa using hcond
          simp only [goodArity, hg, Bool.and_true, decide_eq_true_eq]
          omega
    have hAL : ∀ st acc r st', parseAltLoop toks (n + 1) st acc = (some r, st') →
        goodArityList acc = true →
        goodArityList r = true ∧ acc.length ≤ r.length ∧
          (pCheck toks st .ALTERNATIVE = true → acc.length + 1 ≤ r.length) := by
      intro st acc r st' h hacc
      simp only [parseAltLoop] at h
      split at h
      next hm =>
        split at h
        next st1 heq => exact Option.noConfusion (congrArg Prod.fst h)
        next right st1 heq =>
          have hgr := ihS _ right st1 heq
          obtain ⟨hg, hlen, _⟩ := ihAL st1 (acc ++ [right]) r st' h
            (by rw [goodArityList_append]; simp [hacc, goodArityList, hgr])
          simp [List.length_append] at hlen
          exact ⟨hg, by omega, fun _ => by omega⟩
      next hm =>
        have h2 := congrArg Prod.fst h
        injection h2 with h3
        subst h3
        refine ⟨hacc, le_refl _, ?_⟩
        intro hchk
        rw [pMatch_fst] at hm
        exact absurd hchk hm
    have hA : ∀ st r st', parseAlternative toks (n + 1) st = (some r, st') →
        goodArity r = true := by
      intro st r st' h
      simp only [parseAlternative] at h
      split at h
      next st1 heq => exact Option.noConfusion (congrArg Prod.fst h)
      next left st1 heq =>
        have hgl := ihS st left st1 heq
        split at h
        next hnc =>
          have h2 := congrArg Prod.fst h
          injection h2 with h3
          rw [← h3]
          exact hgl
        next hnc =>
          split at h
          next st2 heq2 => exact Option.noConfusion (congrArg Prod.fst h)
          next choices st2 heq2 =>
            have hchk : pCheck toks st1 .ALTERNATIVE = true := by
              simpa using hnc
            obtain ⟨hg, _, hone⟩ := ihAL st1 [left] choices st2 heq2
              (by simp [goodArityList, hgl])
            have h2 := congrArg Prod.fst h
            injection h2 with h3
            rw [← h3]
            have hlen2 : 2 ≤ choices.length := by
              have := hone hchk
              simpa using this
            simp only [goodArity, hg, Bool.and_true, decide_eq_true_eq]
            exact hlen2
    exact ⟨hE, hA, hAL, hS, hSL, hF, hP⟩

/-- `determineStartSymbol` never changes the rule list. -/
theorem determineStartSymbol_rules (g : Grammar) :
    (Grammar.determineStartSymbol g).rules = g.rules := by
  unfold Grammar.determineStartSymbol
  repeat' split
  all_goals rfl

/-- A successfully parsed rule's right-hand side satisfies the arity
discipline. -/
theorem parseRule_goodArity (toks : List BNFToken) (fuel : Nat) (st : PState)
    (rule : ProductionRule) (st' : PState)
    (h : parseRule toks fuel st = (some rule, st')) :
    goodArity rule.rightSide = true := by
  unfold parseRule at h
  repeat' (change (if _ then _ else _) = _ at h
           split at h)
  all_goals
    first
      | exact Option.noConfusion (congrArg Prod.fst h)
      | (split at h
         next st3 heq => exact Option.noConfusion (congrArg Prod.fst h)
         next expression st3 heq =>
           have h2 := congrArg Prod.fst h
           injection h2 with h3
           rw [← h3]
           exact (parser_arity_invariant toks fuel).1 _ _ _ heq)

/-- The rule-reading loop preserves the arity discipline of the
accumulated grammar. -/
theorem parseGrammarLoop_goodArity (toks : List BNFToken) : ∀ (fuel : Nat)
    (st : PState) (g g' : Grammar) (st' : PState),
    parseGrammarLoop toks fuel st g = (g', st') →
    g.rules.all (fun r => goodArity r.rightSide) = true →
    g'.rules.all (fun r => goodArity r.rightSide) = true := by
  intro fuel
  induction fuel with
  | zero =>
    intro st g g' st' h hg
    have h2 : g = g' := congrArg Prod.fst h
    subst h2
    exact hg
  | succ n ih =>
    intro st g g' st' h hg
    simp only [parseGrammarLoop] at h
    split at h
    · split at h
      · exact ih _ _ _ _ h hg
      · split at h
        next rule st1 heq =>
          refine ih _ _ _ _ h ?_
          simp [Grammar.addRule, List.all_append, hg,
            parseRule_goodArity _ _ _ _ _ heq]
        next st1 heq =>
          have h2 : g = g' := congrArg Prod.fst h
          subst h2
          exact hg
    · have h2 : g = g' := congrArg Prod.fst h
      subst h2
      exact hg

/-- C9: every `Alternative` node and every `Sequence` node in a
grammar AST produced by the grammar parser has at least two children
(`goodArity` checks the whole tree under every rule's right-hand
side): when the parse of an alternative or sequence yields a single
element, the parser returns that element itself instead of wrapping
it. -/
theorem c9_parser_min_arity (toks : List BNFToken) (fuel : Nat)
    (g : Grammar) (st' : PState)
    (h : parseGrammar toks fuel = (some g, st')) :
    g.rules.all (fun r => goodArity r.rightSide) = true := by
  cases fuel with
  | zero => exact Option.noConfusion (congrArg Prod.fst h)
  | succ n =>
    simp only [parseGrammar] at h
    split at h
    next heq => exact Option.noConfusion (congrArg Prod.fst h)
    next heq =>
      have h2 := congrArg Prod.fst h
      injection h2 with h3
      rw [← h3]
      rw [determineStartSymbol_rules]
      exact parseGrammarLoop_goodArity toks n _ _ _ _ rfl rfl

/-- The token stream of `a ::= 'x' | 'y' 'z'`. -/
def c9toks : List BNFToken :=
  [⟨.IDENTIFIER, bs "a", 1, 1⟩, ⟨.DEFINE, bs "::=", 1, 3⟩,
   ⟨.TERMINAL, bs "x", 1, 7⟩, ⟨.ALTERNATIVE, bs "|", 1, 11⟩,
   ⟨.TERMINAL, bs "y", 1, 13⟩, ⟨.TERMINAL, bs "z", 1, 17⟩,
   ⟨.EOF_TOKEN, [], 1, 18⟩]

/-- The grammar the parser produces for `c9toks`: a binary
`Alternative` whose second choice is a binary `Sequence`. -/
def c9g : Grammar :=
  ⟨[⟨bs "a", [],
     .alternative [.terminal (bs "x"),
       .sequence [.terminal (bs "y"), .terminal (bs "z")]]⟩], bs "a"⟩

/-- Witness for C9: on the token stream of `a ::= 'x' | 'y' 'z'` the
parser succeeds and every `Alternative`/`Sequence` node of the result
has exactly two children. -/
theorem c9_parser_min_arity_witness :
    c9g.rules.all (fun r => goodArity r.rightSide) = true :=
  c9_parser_min_arity c9toks 50 c9g ⟨6, none⟩ (by rfl)
